import Mathlib

/-!
Shallow embedding of the BetterPython package manager core
(`src/package-manager/bppkg.py`) and proofs about its specification.

Modelling conventions:
* Python strings are embedded as `List Char`; Python bytes as `List Nat`.
* Fallible Python code returns `Except Err _`, with one `Err` constructor per
  Python exception class that can escape the modelled code.
* Cryptographic hash functions and Ed25519 signature verification are opaque
  side-effect-free library calls in the source; they are passed in as explicit
  function parameters (`HashImpl`, a signature oracle).
* Filesystem and network effects are made explicit: `download_package` returns
  the ordered list of filesystem events it performed, `fetch` receives the
  parsed URL components and the response (declared Content-Length and the
  chunk stream that `response.read(8192)` would yield).
-/

/-- Exception taxonomy of bppkg.py. `packageError`, `securityError`,
`networkError`, `validationError` and `dependencyError` mirror the exception
classes defined in the source; `valueError` and `indexError` model Python's
built-in `ValueError` (failed `int(...)`) and `IndexError` (out-of-range list
subscript) escaping from the version-comparison helpers. `fuelExhausted` is a
modelling artifact of the fuel-bounded resolver recursion and corresponds to
no Python behaviour. -/
inductive Err where
  | packageError (msg : List Char)
  | securityError (msg : List Char)
  | networkError (msg : List Char)
  | validationError (msg : List Char)
  | dependencyError (msg : List Char)
  | valueError
  | indexError
  | fuelExhausted
deriving DecidableEq, Repr

instance {ε α : Type} [DecidableEq ε] [DecidableEq α] : DecidableEq (Except ε α)
  | .error a, .error b =>
      if h : a = b then .isTrue (h ▸ rfl)
      else .isFalse (by intro he; cases he; exact h rfl)
  | .error _, .ok _ => .isFalse (by intro h; cases h)
  | .ok _, .error _ => .isFalse (by intro h; cases h)
  | .ok a, .ok b =>
      if h : a = b then .isTrue (h ▸ rfl)
      else .isFalse (by intro he; cases he; exact h rfl)

/-- Python `s.split(sep)` for a single-character separator: always returns at
least one (possibly empty) field. -/
def splitSep (sep : Char) : List Char → List (List Char)
  | [] => [[]]
  | c :: rest =>
      if c = sep then [] :: splitSep sep rest
      else (c :: (splitSep sep rest).headD []) :: (splitSep sep rest).tail

/-- Split at the first occurrence of `sep`: returns the part before it and,
when `sep` occurs, the part after it. Models Python `s.split(sep, 1)`. -/
def splitFirst (sep : Char) : List Char → List Char × Option (List Char)
  | [] => ([], none)
  | c :: rest =>
      if c = sep then ([], some rest)
      else
        match splitFirst sep rest with
        | (pre, post) => (c :: pre, post)

/-- Python `sep.join(parts)` for a single-character separator. -/
def joinSep (sep : Char) : List (List Char) → List Char
  | [] => []
  | [x] => x
  | x :: y :: t => x ++ sep :: joinSep sep (y :: t)

/-- Python `str.strip()`. Caveat: Python also strips `\x0b`/`\x0c`, which
`Char.isWhitespace` does not cover; no modelled string contains those. -/
def stripChars (l : List Char) : List Char :=
  ((l.dropWhile Char.isWhitespace).reverse.dropWhile Char.isWhitespace).reverse

/-- Numeric value of a list of decimal digit characters. -/
def digitsVal (l : List Char) : Nat :=
  l.foldl (fun a c => 10 * a + (c.toNat - 48)) 0

/-- Python `int(s)` on the strings arising from version fields: an optional
leading minus sign followed by decimal digits; everything else raises
`ValueError` (modelled as `none`). Python's extra forms (leading `+`,
surrounding whitespace, underscores) are not modelled; no claim involves
them. -/
def pyInt (s : List Char) : Option Int :=
  match s with
  | [] => none
  | c :: t =>
      if c = '-' then
        if t ≠ [] ∧ t.all Char.isDigit then some (-(digitsVal t : Int)) else none
      else
        if (c :: t).all Char.isDigit then some ((digitsVal (c :: t) : Int)) else none

/-- Left-to-right traversal of the fields with `pyInt`, failing at the first
non-integer field (the first `int(...)` to raise). -/
def mapPyInt : List (List Char) → Option (List Int)
  | [] => some []
  | x :: t =>
      match pyInt x with
      | none => none
      | some n =>
          match mapPyInt t with
          | none => none
          | some ns => some (n :: ns)

/-- Parse a dotted version string into its integer fields, failing if any
field is not an integer. This is the `[int(x) for x in v.split('.')]`
comprehension inside `DependencyResolver._compare_versions`. -/
def parseVer (v : List Char) : Option (List Int) :=
  mapPyInt (splitSep '.' v)

/-- The pairwise comparison loop of `_compare_versions`:
`for a, b in zip(p1, p2): ...` — first unequal overlapping position decides,
otherwise 0. -/
def cmpInts : List Int → List Int → Int
  | a :: as_, b :: bs => if a > b then 1 else if a < b then -1 else cmpInts as_ bs
  | _, _ => 0

/-- `DependencyResolver._compare_versions(v1, v2)`: parse both version strings
into integer dotted fields (raising `ValueError` on a non-numeric field, `v1`
first as in Python evaluation order) and compare overlapping positions
left-to-right. -/
def compare_versions (v1 v2 : List Char) : Except Err Int :=
  match parseVer v1 with
  | none => .error .valueError
  | some p1 =>
      match parseVer v2 with
      | none => .error .valueError
      | some p2 => .ok (cmpInts p1 p2)

/-- `DependencyResolver._version_satisfies(version, spec)`. The `~` branch
reflects Python's short-circuit `and` together with the unchecked `[1]`
subscripts: when the major fields differ it returns `False` without indexing;
when they agree, a version or spec with fewer than two dotted fields raises
`IndexError` (version first, matching evaluation order). -/
def version_satisfies (version spec : List Char) : Except Err Bool :=
  if spec = ("latest").data ∨ spec = ("*").data then .ok true
  else if spec.take 2 = (">=").data then
    match compare_versions version (spec.drop 2) with
    | .error e => .error e
    | .ok c => .ok (decide (0 ≤ c))
  else if spec.take 2 = ("<=").data then
    match compare_versions version (spec.drop 2) with
    | .error e => .error e
    | .ok c => .ok (decide (c ≤ 0))
  else if spec.take 1 = (">").data then
    match compare_versions version (spec.drop 1) with
    | .error e => .error e
    | .ok c => .ok (decide (0 < c))
  else if spec.take 1 = ("<").data then
    match compare_versions version (spec.drop 1) with
    | .error e => .error e
    | .ok c => .ok (decide (c < 0))
  else if spec.take 1 = ("^").data then
    .ok (decide ((splitSep '.' version).headD [] = (splitSep '.' (spec.drop 1)).headD []))
  else if spec.take 1 = ("~").data then
    let v_parts := splitSep '.' version
    let s_parts := splitSep '.' (spec.drop 1)
    if v_parts.headD [] = s_parts.headD [] then
      if 2 ≤ v_parts.length then
        if 2 ≤ s_parts.length then
          .ok (decide (v_parts.getD 1 [] = s_parts.getD 1 []))
        else .error .indexError
      else .error .indexError
    else .ok false
  else .ok (decide (version = spec))

/-- Spec-side description of the numeric comparison: "pairwise left-to-right
integer comparison of dotted components (comparing only overlapping positions
when field counts differ)", expressed as an `Ordering`. Written from the
spec's words, to be related to the code's `compare_versions`. -/
def specLex : List Int → List Int → Ordering
  | x :: xs, y :: ys => if x < y then .lt else if y < x then .gt else specLex xs ys
  | _, _ => .eq

def ordToInt : Ordering → Int
  | .lt => -1
  | .eq => 0
  | .gt => 1

theorem cmpInts_eq_ordToInt_specLex (a b : List Int) :
    cmpInts a b = ordToInt (specLex a b) := by
  induction a generalizing b with
  | nil => cases b <;> simp [cmpInts, specLex, ordToInt]
  | cons x xs ih =>
      cases b with
      | nil => simp [cmpInts, specLex, ordToInt]
      | cons y ys =>
          by_cases h1 : x < y
          · simp [cmpInts, specLex, ordToInt, h1, Int.not_lt.mpr (Int.le_of_lt h1)]
          · by_cases h2 : y < x
            · simp [cmpInts, specLex, ordToInt, h1, h2]
            · have hxy : ¬ x > y := h2
              simp [cmpInts, specLex, ordToInt, h1, h2, ih]

theorem splitSep_ne_nil (sep : Char) (l : List Char) : splitSep sep l ≠ [] := by
  cases l with
  | nil => simp [splitSep]
  | cons c rest =>
      rw [splitSep]
      by_cases hc : c = sep <;> simp [hc]

/-- Character class `[a-zA-Z0-9_-]` of the package-name regex. -/
def nameChar (c : Char) : Bool :=
  c.isAlpha ∨ c.isDigit ∨ c = '_' ∨ c = '-'

/-- `Security.validate_package_name`. Mirrors the source checks: nonempty,
matches `^[a-zA-Z][a-zA-Z0-9_-]*$`, no `..`/`/`/`\` substring, length at most
128. Caveat: Python's `$` also matches just before a single trailing newline;
that quirk is not modelled (no claim involves it). -/
def validate_package_name (name : List Char) : Bool :=
  match name with
  | [] => false
  | c :: rest =>
      c.isAlpha ∧ rest.all nameChar ∧
      ¬ ('.' :: '.' :: []) <:+: (c :: rest) ∧ '/' ∉ (c :: rest) ∧
      '\\' ∉ (c :: rest) ∧ (c :: rest).length ≤ 128

/-- Numeric identifier of the semver grammar: `0|[1-9]\d*`. -/
def semverNum (s : List Char) : Bool :=
  s = ['0'] ∨ (s ≠ [] ∧ s.all Char.isDigit ∧ s.headD ' ' ≠ '0')

/-- Character class `[0-9a-zA-Z-]` of semver prerelease/build identifiers. -/
def semverIdChar (c : Char) : Bool :=
  c.isDigit ∨ c.isAlpha ∨ c = '-'

/-- Prerelease identifier: `0|[1-9]\d*|\d*[a-zA-Z-][0-9a-zA-Z-]*`, i.e. either
a canonical numeral or a nonempty `[0-9a-zA-Z-]` string containing at least
one non-digit. -/
def semverPreId (s : List Char) : Bool :=
  semverNum s ∨ (s ≠ [] ∧ s.all semverIdChar ∧ s.any (fun c => ¬ c.isDigit))

/-- Build identifier: `[0-9a-zA-Z-]+`. -/
def semverBuildId (s : List Char) : Bool :=
  s ≠ [] ∧ s.all semverIdChar

/-- Exactly three dotted numeric fields: the `major.minor.patch` part. -/
def semverMain (main : List Char) : Bool :=
  match splitSep '.' main with
  | [a, b, c] => semverNum a && semverNum b && semverNum c
  | _ => false

/-- The `major.minor.patch` core together with an optional `-prerelease`
suffix (the first `-` starts the prerelease, since the core is digits and
dots only). -/
def semverCore (core : List Char) : Bool :=
  match splitFirst '-' core with
  | (main, none) => semverMain main
  | (main, some p) => semverMain main && (splitSep '.' p).all semverPreId

/-- `Security.validate_version`: the full semantic-version regex
`^major.minor.patch(-prerelease)?(+build)?$`, implemented as an executable
parser. The first `+` starts the build part (no earlier part may contain
`+`); the same trailing-newline regex quirk as for package names is not
modelled. -/
def validate_version (version : List Char) : Bool :=
  match splitSep '+' version with
  | [core] => semverCore core
  | [core, build] => semverCore core && (splitSep '.' build).all semverBuildId
  | _ => false

/-- Set of supported checksum algorithms (`SUPPORTED_HASHES`). -/
def SUPPORTED_HASHES : List (List Char) :=
  [("sha256").data, ("sha512").data, ("blake2b").data]

/-- The three hash functions of `hashlib` used by the source, supplied as
opaque pure functions from bytes to hex-digest strings. -/
structure HashImpl where
  sha256 : List Nat → List Char
  sha512 : List Nat → List Char
  blake2b : List Nat → List Char

/-- `Security.compute_checksum(data, algorithm)`: `ValidationError` on an
unsupported algorithm, else the corresponding hex digest. -/
def compute_checksum (H : HashImpl) (data : List Nat) (algorithm : List Char) :
    Except Err (List Char) :=
  if algorithm ∉ SUPPORTED_HASHES then
    .error (.validationError (("Unsupported hash algorithm: ").data ++ algorithm))
  else if algorithm = ("sha256").data then .ok (H.sha256 data)
  else if algorithm = ("sha512").data then .ok (H.sha512 data)
  else if algorithm = ("blake2b").data then .ok (H.blake2b data)
  else .error (.validationError (("Unsupported hash: ").data ++ algorithm))

/-- `Security.verify_checksum(data, expected, algorithm)`:
`secrets.compare_digest` is value-wise string equality (its constant-time
execution property is temporal and not representable here). -/
def verify_checksum (H : HashImpl) (data : List Nat) (expected : List Char)
    (algorithm : List Char) : Except Err Bool :=
  match compute_checksum H data algorithm with
  | .error e => .error e
  | .ok actual => .ok (decide (actual = expected))

/-- One component step of lexical path resolution: empty and `.` components
are skipped, `..` removes the last component (a no-op at the root, as in
POSIX `/.. = /`), anything else is appended. -/
def normStep (acc : List (List Char)) (c : List Char) : List (List Char) :=
  if c = [] ∨ c = (".").data then acc
  else if c = ("..").data then acc.dropLast
  else acc ++ [c]

/-- Lexical `Path.resolve()` on the components of an absolute path. Symlinks
do not exist in the model, so resolution is purely lexical. -/
def normalizePath (comps : List (List Char)) : List (List Char) :=
  comps.foldl normStep []

/-- `Security.sanitize_path(base, target)`. `base` is given as the component
list of an absolute path; `target` is a raw string, split on `/` (an absolute
target replaces `base`, as with `pathlib`'s `/` operator). The
`relative_to` check succeeds exactly when the canonical base is a prefix of
the canonical result. -/
def sanitize_path (base : List (List Char)) (target : List Char) :
    Except Err (List (List Char)) :=
  let b := normalizePath base
  let tcomps := splitSep '/' target
  let resolved := if target.headD ' ' = '/' then normalizePath tcomps
                  else tcomps.foldl normStep b
  if b <+: resolved then .ok resolved
  else .error (.securityError (("Path traversal detected: ").data ++ target))

/-- The `^\d+\.\d+\.\d+\.\d+$` literal-IP test of `Network.fetch`. -/
def isIPv4 (h : List Char) : Bool :=
  let ps := splitSep '.' h
  ps.length = 4 ∧ ps.all (fun p => p ≠ [] ∧ p.all Char.isDigit)

/-- The chunked read loop of `Network.fetch`: while the accumulated data is
shorter than `max_size`, read a chunk (an empty chunk is end-of-stream),
append it, and raise `SecurityError` if the accumulated length then exceeds
`max_size`. -/
def readChunks (max_size : Nat) : List (List Nat) → List Nat → Except Err (List Nat)
  | [], data => .ok data
  | c :: rest, data =>
    if data.length < max_size then
      if c = [] then .ok data
      else if max_size < (data ++ c).length then
        .error (.securityError (("Content exceeds size limit").data))
      else readChunks max_size rest (data ++ c)
    else .ok data

/-- `Network.fetch(url, max_size)`. The URL is supplied pre-parsed (scheme
and hostname, as `urllib.parse.urlparse` would return them) together with the
response's declared Content-Length header and the chunk stream that
successive `response.read(8192)` calls yield; transport-level exceptions
(HTTPError, URLError, SSLError) are outside the modelled success path. -/
def fetch (scheme : List Char) (hostname : Option (List Char))
    (content_length : Option Int) (chunks : List (List Nat)) (max_size : Nat) :
    Except Err (List Nat) :=
  if scheme ≠ ("https").data then
    .error (.securityError (("Only HTTPS URLs are allowed").data))
  else if isIPv4 (hostname.getD []) then
    .error (.securityError (("IP addresses not allowed in URLs").data))
  else
    match content_length with
    | some n =>
        if (max_size : Int) < n then
          .error (.securityError (("Content too large").data))
        else readChunks max_size chunks []
    | none => readChunks max_size chunks []

/-- The bytes the loop actually has available: the chunks before the first
empty (end-of-stream) chunk, concatenated. -/
def streamBody (chunks : List (List Nat)) : List Nat :=
  (chunks.takeWhile (fun c => c ≠ [])).flatten

/-- The stream strictly exceeds `max_size` mid-transfer: starting from
accumulated bytes `data`, some nonempty chunk arrives while the accumulator is
still below the limit and carries the total strictly past it (the condition
under which the read loop raises `SecurityError`). -/
def overflows (max_size : Nat) : List (List Nat) → List Nat → Bool
  | [], _ => false
  | c :: rest, data =>
      data.length < max_size && c ≠ [] &&
        (max_size < (data ++ c).length || overflows max_size rest (data ++ c))

/-- `PackageInfo`, the remote package metadata record. -/
structure PackageInfo where
  name : List Char
  version : List Char
  description : List Char
  checksum : List Char
  checksum_algorithm : List Char
  signature : List Char
  signer_key_id : List Char
  download_url : List Char
  dependencies : List (List Char × List Char)
deriving DecidableEq, Repr

/-- Ordered filesystem events performed by `download_package`. -/
inductive FsEvent where
  | mkdirParents (path : List (List Char))
  | writeBytes (path : List (List Char)) (data : List Nat)
deriving DecidableEq, Repr

/-- First-match association-list lookup, the model of Python dict lookup. -/
def lookupA {α : Type} : List (List Char × α) → List Char → Option α
  | [], _ => none
  | (k, v) :: t, n => if k = n then some v else lookupA t n

/-- UTF-8 encoding of the (ASCII) checksum hex string:
`info.checksum.encode('utf-8')`. -/
def strBytes (s : List Char) : List Nat := s.map Char.toNat

/-- `Network.download_package(info, dest, trusted_keys)`. `fetched` is the
outcome of the initial `self.fetch(info.download_url)` call; `sigOk` is the
Ed25519 `Security.verify_signature` oracle (data, base64 signature, public
key). The returned list is the ordered filesystem events (mkdir of the
destination's parent, then the byte write); a raised exception aborts with
the events performed so far. -/
def download_package (H : HashImpl)
    (sigOk : List Nat → List Char → List Nat → Bool)
    (info : PackageInfo) (dest : List (List Char))
    (trusted_keys : List (List Char × List Nat))
    (fetched : Except Err (List Nat)) :
    List FsEvent × Except Err (List (List Char)) :=
  match fetched with
  | .error e => ([], .error e)
  | .ok data =>
    match verify_checksum H data info.checksum info.checksum_algorithm with
    | .error e => ([], .error e)
    | .ok ok1 =>
      if ok1 = false then
        ([], .error (.securityError
          (("Checksum mismatch for ").data ++ info.name ++ ['@'] ++ info.version)))
      else
        match lookupA trusted_keys info.signer_key_id with
        | none =>
            ([], .error (.securityError
              (("Package signed by untrusted key: ").data ++ info.signer_key_id)))
        | some public_key =>
            if sigOk (strBytes info.checksum) info.signature public_key then
              ([.mkdirParents dest.dropLast, .writeBytes dest data], .ok dest)
            else
              ([], .error (.securityError
                (("Invalid signature for ").data ++ info.name ++ ['@'] ++ info.version)))

/-- The registry, as `Network.fetch_package_info` sees it: `none` models a
`NetworkError` (transport or HTTP failure) for that name/spec query. -/
def Reg : Type := List Char → List Char → Option PackageInfo

/-- `Network.fetch_package_info(name, version)`: validates the package name
first (`ValidationError`), then queries the registry (`NetworkError` on
failure). -/
def fetchPackageInfo (reg : Reg) (name version : List Char) :
    Except Err PackageInfo :=
  if validate_package_name name = false then
    .error (.validationError (("Invalid package name: ").data ++ name))
  else
    match reg name version with
    | none => .error (.networkError [])
    | some info => .ok info

def conflictMsg (name spec have_ : List Char) : List Char :=
  ("Version conflict for ").data ++ name ++ (": need ").data ++ spec ++
    (", have ").data ++ have_

def circularMsg (name : List Char) : List Char :=
  ("Circular dependency detected: ").data ++ name

/-- `DependencyResolver._resolve_recursive(deps, resolved, in_progress)`.
State is threaded explicitly: `resolved` is an insertion-ordered association
list (Python dict), `in_progress` a duplicate-free list (Python set, `add` =
append since elements are only added when absent, `remove` = erase). `fuel`
bounds the recursion depth and is a modelling artifact: every recursive call
spends one unit, and exhaustion yields the artificial `fuelExhausted` error.
On a `NetworkError` from `fetch_package_info` the dependency is skipped with
a warning and — exactly as in the source's `continue` — the name is NOT
removed from `in_progress`. -/
def resolveRec (reg : Reg) :
    Nat → List (List Char × List Char) → List (List Char × PackageInfo) →
    List (List Char) →
    Except Err (List (List Char × PackageInfo) × List (List Char))
  | _, [], res, prog => .ok (res, prog)
  | 0, _ :: _, _, _ => .error .fuelExhausted
  | fuel + 1, (name, version_spec) :: rest, res, prog =>
    match lookupA res name with
    | some existing =>
        match version_satisfies existing.version version_spec with
        | .error e => .error e
        | .ok sat =>
            if sat then resolveRec reg fuel rest res prog
            else .error (.dependencyError (conflictMsg name version_spec existing.version))
    | none =>
        if name ∈ prog then .error (.dependencyError (circularMsg name))
        else
          match fetchPackageInfo reg name version_spec with
          | .error (.networkError _) => resolveRec reg fuel rest res (prog ++ [name])
          | .error e => .error e
          | .ok info =>
              match (if info.dependencies = [] then
                       .ok (res ++ [(name, info)], prog ++ [name])
                     else
                       resolveRec reg fuel info.dependencies
                         (res ++ [(name, info)]) (prog ++ [name])) with
              | .error e => .error e
              | .ok (res2, prog2) =>
                  resolveRec reg fuel rest res2 (prog2.erase name)

/-- `DependencyResolver.resolve(dependencies)`: run the recursion from empty
state and return the resolved infos. -/
def resolve (reg : Reg) (fuel : Nat) (dependencies : List (List Char × List Char)) :
    Except Err (List PackageInfo) :=
  match resolveRec reg fuel dependencies [] [] with
  | .error e => .error e
  | .ok (res, _) => .ok (res.map (fun p => p.2))

/-- A Python value as stored in the `from_toml` result dict: the parser puts
strings, JSON arrays (keywords/files) and nested dicts
(dependencies/dev-dependencies/scripts) into the same dynamically-typed
record. -/
inductive PyVal where
  | str (s : List Char)
  | arr (xs : List (List Char))
  | dict (xs : List (List Char × PyVal))

/-- The `result` dict built by `PackageManifest.from_toml` (also the value of
`cls(**result)`, since the dataclass constructor performs no validation). -/
structure MRecord where
  name : PyVal
  version : PyVal
  description : PyVal
  author : PyVal
  license : PyVal
  repository : PyVal
  homepage : PyVal
  keywords : PyVal
  main : PyVal
  files : PyVal
  dependencies : PyVal
  dev_dependencies : PyVal
  scripts : PyVal
  min_bp_version : PyVal

/-- Initial value of the `result` dict in `from_toml` (the field defaults). -/
def initRecord : MRecord where
  name := .str []
  version := .str []
  description := .str []
  author := .str []
  license := .str (("MIT").data)
  repository := .str []
  homepage := .str []
  keywords := .arr []
  main := .str (("main.bp").data)
  files := .arr []
  dependencies := .dict []
  dev_dependencies := .dict []
  scripts := .dict []
  min_bp_version := .str (("1.0.0").data)

/-- `if key in result: result[key] = value` for the `[package]` section:
assign the field whose name equals `key`, leave everything else unchanged. -/
def setPkgField (r : MRecord) (key : List Char) (v : PyVal) : MRecord where
  name := if key = ("name").data then v else r.name
  version := if key = ("version").data then v else r.version
  description := if key = ("description").data then v else r.description
  author := if key = ("author").data then v else r.author
  license := if key = ("license").data then v else r.license
  repository := if key = ("repository").data then v else r.repository
  homepage := if key = ("homepage").data then v else r.homepage
  keywords := if key = ("keywords").data then v else r.keywords
  main := if key = ("main").data then v else r.main
  files := if key = ("files").data then v else r.files
  dependencies := if key = ("dependencies").data then v else r.dependencies
  dev_dependencies := if key = ("dev_dependencies").data then v else r.dev_dependencies
  scripts := if key = ("scripts").data then v else r.scripts
  min_bp_version := if key = ("min_bp_version").data then v else r.min_bp_version

/-- Python dict insertion: update the first matching key in place, else
append. -/
def assocSet : List (List Char × PyVal) → List Char → PyVal → List (List Char × PyVal)
  | [], k, v => [(k, v)]
  | (k0, v0) :: t, k, v =>
      if k0 = k then (k0, v) :: t else (k0, v0) :: assocSet t k v

/-- `result[section][key] = value` where `result[section]` is expected to be a
dict. If the slot does not hold a dict (Python would raise `TypeError`; never
reached on `to_toml` output), the slot is left unchanged. -/
def dictInsert (d : PyVal) (k : List Char) (v : PyVal) : PyVal :=
  match d with
  | .dict xs => .dict (assocSet xs k v)
  | other => other

/-- Value parsing of `from_toml`: a `"`-quoted value is dequoted
(`value[1:-1]`), a `[`…`]` value goes through `json.loads` (the `jl` oracle),
anything else stays a raw string. -/
def parseValue (jl : List Char → List (List Char)) (raw : List Char) : PyVal :=
  if raw.headD ' ' = '\"' ∧ raw.getLastD ' ' = '\"' then .str ((raw.drop 1).dropLast)
  else if raw.headD ' ' = '[' ∧ raw.getLastD ' ' = ']' then .arr (jl raw)
  else .str raw

/-- One line of the `from_toml` loop: strip; skip blank lines and comments;
`[...]` lines switch the current section; `key = value` lines assign into the
current section (`[package]` by field name, the three dict sections by
insertion, all other sections — including `[package.files]` — are ignored). -/
def tomlStep (jl : List Char → List (List Char)) (st : Option (List Char) × MRecord)
    (rawLine : List Char) : Option (List Char) × MRecord :=
  let line := stripChars rawLine
  if line = [] then st
  else if line.headD ' ' = '#' then st
  else if line.headD ' ' = '[' ∧ line.getLastD ' ' = ']' then
    (some ((line.drop 1).dropLast), st.2)
  else if '=' ∈ line then
    match splitFirst '=' line with
    | (k0, post) =>
      let key := stripChars k0
      let v := parseValue jl (stripChars (post.getD []))
      match st.1 with
      | some sec =>
          if sec = ("package").data then (st.1, setPkgField st.2 key v)
          else if sec = ("dependencies").data then
            (st.1, { st.2 with dependencies := dictInsert st.2.dependencies key v })
          else if sec = ("dev-dependencies").data then
            (st.1, { st.2 with dev_dependencies := dictInsert st.2.dev_dependencies key v })
          else if sec = ("scripts").data then
            (st.1, { st.2 with scripts := dictInsert st.2.scripts key v })
          else st
      | none => st
  else st

/-- `PackageManifest.from_toml(content)`: split on newlines and run the line
loop from no current section and the default-valued record. -/
def from_toml (jl : List Char → List (List Char)) (content : List Char) : MRecord :=
  ((splitSep '\n' content).foldl (tomlStep jl) (none, initRecord)).2

/-- `PackageManifest`, with the statically-typed fields of the dataclass. -/
structure PackageManifest where
  name : List Char
  version : List Char
  description : List Char
  author : List Char
  license : List Char
  repository : List Char
  homepage : List Char
  keywords : List (List Char)
  main : List Char
  files : List (List Char)
  dependencies : List (List Char × List Char)
  dev_dependencies : List (List Char × List Char)
  scripts : List (List Char × List Char)
  min_bp_version : List Char

/-- A `key = "value"` manifest line. -/
def kvLine (k v : List Char) : List Char :=
  k ++ (" = ").data ++ ['\"'] ++ v ++ ['\"']

/-- A `[package.files]` entry line: two spaces, the quoted name, a comma. -/
def fileLine (f : List Char) : List Char :=
  ("  ").data ++ ['\"'] ++ f ++ ("\",").data

/-- The line list written by `PackageManifest.to_toml`; `jd` is the
`json.dumps` oracle used for the keywords array. -/
def tomlLines (jd : List (List Char) → List Char) (m : PackageManifest) :
    List (List Char) :=
  [("[package]").data,
   kvLine (("name").data) m.name,
   kvLine (("version").data) m.version,
   kvLine (("description").data) m.description,
   kvLine (("author").data) m.author,
   kvLine (("license").data) m.license] ++
  (if m.repository ≠ [] then [kvLine (("repository").data) m.repository] else []) ++
  (if m.homepage ≠ [] then [kvLine (("homepage").data) m.homepage] else []) ++
  (if m.keywords ≠ [] then [("keywords = ").data ++ jd m.keywords] else []) ++
  [kvLine (("main").data) m.main] ++
  (if m.min_bp_version ≠ [] then [kvLine (("min_bp_version").data) m.min_bp_version] else []) ++
  [[]] ++
  (if m.files ≠ [] then
     [("[package.files]").data] ++ m.files.map fileLine ++ [[]]
   else []) ++
  (if m.dependencies ≠ [] then
     [("[dependencies]").data] ++ m.dependencies.map (fun p => kvLine p.1 p.2) ++ [[]]
   else []) ++
  (if m.dev_dependencies ≠ [] then
     [("[dev-dependencies]").data] ++ m.dev_dependencies.map (fun p => kvLine p.1 p.2) ++ [[]]
   else []) ++
  (if m.scripts ≠ [] then
     [("[scripts]").data] ++ m.scripts.map (fun p => kvLine p.1 p.2) ++ [[]]
   else [])

/-- `PackageManifest.to_toml()`: the lines joined with newlines
(`'\n'.join(lines)`). -/
def to_toml (jd : List (List Char) → List Char) (m : PackageManifest) : List Char :=
  joinSep '\n' (tomlLines jd m)

/-- The record a manifest denotes under the dynamic typing of `from_toml`:
used to state when the round-trip is the identity. -/
def manifestRecord (m : PackageManifest) : MRecord where
  name := .str m.name
  version := .str m.version
  description := .str m.description
  author := .str m.author
  license := .str m.license
  repository := .str m.repository
  homepage := .str m.homepage
  keywords := .arr m.keywords
  main := .str m.main
  files := .arr m.files
  dependencies := .dict (m.dependencies.map (fun p => (p.1, .str p.2)))
  dev_dependencies := .dict (m.dev_dependencies.map (fun p => (p.1, .str p.2)))
  scripts := .dict (m.scripts.map (fun p => (p.1, .str p.2)))
  min_bp_version := .str m.min_bp_version

/-- C6: for every byte string and every supported algorithm (sha256, sha512,
blake2b), verifying the checksum just computed for that data succeeds —
`verify_checksum(data, compute_checksum(data, algo), algo)` is true. -/
theorem c6_checksum_roundtrip (H : HashImpl) (data : List Nat)
    (algorithm : List Char) (c : List Char)
    (halg : algorithm ∈ SUPPORTED_HASHES)
    (hc : compute_checksum H data algorithm = .ok c) :
    verify_checksum H data c algorithm = .ok true := by
  simp only [SUPPORTED_HASHES, List.mem_cons, List.not_mem_nil, or_false] at halg
  rcases halg with rfl | rfl | rfl <;>
    simp [compute_checksum, verify_checksum, SUPPORTED_HASHES] at hc ⊢ <;>
    simp [← hc]

/-- Witness for C6 at a concrete hash implementation, byte string and
algorithm. -/
theorem c6_checksum_roundtrip_witness :
    verify_checksum ⟨fun _ => [], fun _ => [], fun _ => []⟩ [7]
      [] (("sha256").data) = .ok true := by
  have h := c6_checksum_roundtrip ⟨fun _ => [], fun _ => [], fun _ => []⟩ [7]
    (("sha256").data) [] (by decide) (by rfl)
  exact h

/-- C1: `download_package` writes to the destination only when the checksum
matches, the signer key is in `trusted_keys` and the signature over the
checksum bytes verifies; on a checksum mismatch, an unknown signer key or an
invalid signature it raises `SecurityError` with no filesystem event having
occurred, and every error outcome leaves the destination unwritten. -/
theorem c1_download_package_gated (H : HashImpl)
    (sigOk : List Nat → List Char → List Nat → Bool)
    (info : PackageInfo) (dest : List (List Char))
    (trusted_keys : List (List Char × List Nat))
    (fetched : Except Err (List Nat)) :
    (∀ e, (download_package H sigOk info dest trusted_keys fetched).2 = .error e →
        (download_package H sigOk info dest trusted_keys fetched).1 = []) ∧
    (∀ data, fetched = .ok data →
        verify_checksum H data info.checksum info.checksum_algorithm = .ok false →
        (download_package H sigOk info dest trusted_keys fetched).2 =
          .error (.securityError
            (("Checksum mismatch for ").data ++ info.name ++ ['@'] ++ info.version))) ∧
    (∀ data, fetched = .ok data →
        verify_checksum H data info.checksum info.checksum_algorithm = .ok true →
        lookupA trusted_keys info.signer_key_id = none →
        (download_package H sigOk info dest trusted_keys fetched).2 =
          .error (.securityError
            (("Package signed by untrusted key: ").data ++ info.signer_key_id))) ∧
    (∀ data pk, fetched = .ok data →
        verify_checksum H data info.checksum info.checksum_algorithm = .ok true →
        lookupA trusted_keys info.signer_key_id = some pk →
        sigOk (strBytes info.checksum) info.signature pk = false →
        (download_package H sigOk info dest trusted_keys fetched).2 =
          .error (.securityError
            (("Invalid signature for ").data ++ info.name ++ ['@'] ++ info.version))) ∧
    (∀ p, (download_package H sigOk info dest trusted_keys fetched).2 = .ok p →
        p = dest ∧
        ∃ data, fetched = .ok data ∧
          verify_checksum H data info.checksum info.checksum_algorithm = .ok true ∧
          (∃ pk, lookupA trusted_keys info.signer_key_id = some pk ∧
             sigOk (strBytes info.checksum) info.signature pk = true) ∧
          (download_package H sigOk info dest trusted_keys fetched).1 =
            [.mkdirParents dest.dropLast, .writeBytes dest data]) := by
  refine ⟨?_, ?_, ?_, ?_, ?_⟩
  · intro e he
    cases hf : fetched with
    | error e0 => simp [download_package, hf]
    | ok data =>
        cases hv : verify_checksum H data info.checksum info.checksum_algorithm with
        | error e1 => simp [download_package, hf, hv]
        | ok b =>
            cases b with
            | false => simp [download_package, hf, hv]
            | true =>
                cases hk : lookupA trusted_keys info.signer_key_id with
                | none => simp [download_package, hf, hv, hk]
                | some pk =>
                    cases hs : sigOk (strBytes info.checksum) info.signature pk with
                    | false => simp [download_package, hf, hv, hk, hs]
                    | true =>
                        rw [hf] at he
                        simp [download_package, hv, hk, hs] at he
  · intro data hf hv
    simp [download_package, hf, hv]
  · intro data hf hv hk
    simp [download_package, hf, hv, hk]
  · intro data pk hf hv hk hs
    simp [download_package, hf, hv, hk, hs]
  · intro p hp
    cases hf : fetched with
    | error e0 => rw [hf] at hp; simp [download_package] at hp
    | ok data =>
        rw [hf] at hp
        cases hv : verify_checksum H data info.checksum info.checksum_algorithm with
        | error e1 => simp [download_package, hv] at hp
        | ok b =>
            cases b with
            | false => simp [download_package, hv] at hp
            | true =>
                cases hk : lookupA trusted_keys info.signer_key_id with
                | none => simp [download_package, hv, hk] at hp
                | some pk =>
                    cases hs : sigOk (strBytes info.checksum) info.signature pk with
                    | false => simp [download_package, hv, hk, hs] at hp
                    | true =>
                        simp [download_package, hv, hk, hs] at hp
                        refine ⟨hp.symm, data, rfl, hv, ⟨pk, rfl, hs⟩, ?_⟩
                        simp [download_package, hv, hk, hs]

/-- Witness for C1: a concrete download whose checksum verification fails is
rejected with `SecurityError` and produces no filesystem events. -/
theorem c1_download_package_gated_witness :
    (download_package ⟨fun _ => ("aa").data, fun _ => [], fun _ => []⟩
        (fun _ _ _ => true)
        ⟨("p").data, ("1.0.0").data, [], ("bb").data, ("sha256").data,
         ("sig").data, ("k").data, ("u").data, []⟩
        [("d").data] [] (.ok [1])).2 =
      .error (.securityError
        (("Checksum mismatch for ").data ++ ("p").data ++ ['@'] ++ ("1.0.0").data)) := by
  have h := (c1_download_package_gated
      ⟨fun _ => ("aa").data, fun _ => [], fun _ => []⟩ (fun _ _ _ => true)
      ⟨("p").data, ("1.0.0").data, [], ("bb").data, ("sha256").data,
       ("sig").data, ("k").data, ("u").data, []⟩
      [("d").data] [] (.ok [1])).2.1 [1] rfl (by decide)
  exact h

/-- C4: when resolution meets a dependency whose name is already resolved, a
failed satisfaction check aborts the whole resolution with the
version-conflict `DependencyError`, and a passed check continues with the
already-resolved state unchanged — no backtracking, the first-resolved
version stays authoritative. -/
theorem c4_version_conflict_aborts (reg : Reg) (fuel : Nat)
    (name version_spec : List Char) (rest : List (List Char × List Char))
    (res : List (List Char × PackageInfo)) (prog : List (List Char))
    (existing : PackageInfo)
    (hres : lookupA res name = some existing) :
    (version_satisfies existing.version version_spec = .ok false →
      resolveRec reg (fuel + 1) ((name, version_spec) :: rest) res prog =
        .error (.dependencyError (conflictMsg name version_spec existing.version))) ∧
    (version_satisfies existing.version version_spec = .ok true →
      resolveRec reg (fuel + 1) ((name, version_spec) :: rest) res prog =
        resolveRec reg fuel rest res prog) := by
  constructor <;> intro h <;> simp [resolveRec, hres, h]

/-- Witness for C4: with `a` already resolved at version 2.0.0, a dependency
on `a = 1.0.0` aborts with the version-conflict error. -/
theorem c4_version_conflict_aborts_witness :
    resolveRec (fun _ _ => none) 1 [(("a").data, ("1.0.0").data)]
        [(("a").data,
          ⟨("a").data, ("2.0.0").data, [], [], [], [], [], [], []⟩)] [] =
      .error (.dependencyError
        (conflictMsg (("a").data) (("1.0.0").data) (("2.0.0").data))) := by
  have h := (c4_version_conflict_aborts (fun _ _ => none) 0 (("a").data)
      (("1.0.0").data) []
      [(("a").data, ⟨("a").data, ("2.0.0").data, [], [], [], [], [], [], []⟩)]
      [] ⟨("a").data, ("2.0.0").data, [], [], [], [], [], [], []⟩
      (by decide)).1 (by decide)
  exact h

theorem lookupA_append_none {α : Type} (res : List (List Char × α))
    (name n : List Char) (info : α) (h : lookupA res name = none)
    (hne : n ≠ name) : lookupA (res ++ [(n, info)]) name = none := by
  induction res with
  | nil => simp [lookupA, hne]
  | cons hd tl ih =>
      obtain ⟨k, v⟩ := hd
      by_cases hk : k = name
      · simp [lookupA, hk] at h
      · simp [lookupA, hk] at h ⊢
        exact ih h

/-- A name that sits in `in_progress` and is absent from `resolved` stays in
`in_progress` (and absent from `resolved`) across every successfully
completing resolver call: nothing ever removes it. -/
theorem resolveRec_keeps_skipped (reg : Reg) (name : List Char) :
    ∀ fuel deps res prog out, name ∈ prog → lookupA res name = none →
      resolveRec reg fuel deps res prog = .ok out →
      name ∈ out.2 ∧ lookupA out.1 name = none := by
  intro fuel
  induction fuel with
  | zero =>
      intro deps res prog out hm hl hr
      cases deps with
      | nil =>
          simp [resolveRec] at hr
          cases hr
          exact ⟨hm, hl⟩
      | cons hd tl => simp [resolveRec] at hr
  | succ fuel ih =>
      intro deps res prog out hm hl hr
      cases deps with
      | nil =>
          simp [resolveRec] at hr
          cases hr
          exact ⟨hm, hl⟩
      | cons hd tl =>
          obtain ⟨n, s⟩ := hd
          rw [resolveRec] at hr
          split at hr
          · -- name already resolved: version_satisfies decides
            split at hr
            · exact Except.noConfusion hr
            · split at hr
              · exact ih tl res prog out hm hl hr
              · exact Except.noConfusion hr
          · rename_i hlk
            split at hr
            · exact Except.noConfusion hr
            · rename_i hp
              have hne : n ≠ name := fun h => hp (h ▸ hm)
              split at hr
              · -- NetworkError: skipped, name n stays in in_progress
                exact ih tl res (prog ++ [n]) out (List.mem_append_left _ hm) hl hr
              · exact Except.noConfusion hr
              · rename_i info hf
                have hl2 : lookupA (res ++ [(n, info)]) name = none :=
                  lookupA_append_none res name n info hl hne
                split at hr
                · exact Except.noConfusion hr
                · rename_i st2 res2 prog2 hin
                  have h2 : name ∈ prog2 ∧ lookupA res2 name = none := by
                    by_cases hd0 : info.dependencies = []
                    · rw [if_pos hd0] at hin
                      cases hin
                      exact ⟨List.mem_append_left _ hm, hl2⟩
                    · rw [if_neg hd0] at hin
                      exact ih info.dependencies (res ++ [(n, info)])
                        (prog ++ [n]) (res2, prog2)
                        (List.mem_append_left _ hm) hl2 hin
                  have hm3 : name ∈ prog2.erase n :=
                    (List.mem_erase_of_ne hne.symm).mpr h2.1
                  exact ih tl res2 (prog2.erase n) out hm3 h2.2 hr

/-- C9: a dependency skipped because fetching its `PackageInfo` raised
`NetworkError` leaves its name in `in_progress` (the `continue` bypasses the
removal); the invariant theorem shows no later step of the run ever removes
it (or resolves it), and any later occurrence of the same name therefore
fails the whole resolution with the circular-dependency `DependencyError`
instead of being retried or skipped again. -/
theorem c9_network_skip_poisons_name (reg : Reg) (name version_spec : List Char)
    (hval : validate_package_name name = true)
    (hreg : reg name version_spec = none) :
    (∀ fuel rest res prog, lookupA res name = none → name ∉ prog →
       resolveRec reg (fuel + 1) ((name, version_spec) :: rest) res prog =
         resolveRec reg fuel rest res (prog ++ [name])) ∧
    (∀ fuel rest2 res2 prog2 spec2, lookupA res2 name = none → name ∈ prog2 →
       resolveRec reg (fuel + 1) ((name, spec2) :: rest2) res2 prog2 =
         .error (.dependencyError (circularMsg name))) ∧
    (∀ fuel deps res prog out, name ∈ prog → lookupA res name = none →
       resolveRec reg fuel deps res prog = .ok out →
       name ∈ out.2 ∧ lookupA out.1 name = none) := by
  refine ⟨?_, ?_, ?_⟩
  · intro fuel rest res prog hres hprog
    rw [resolveRec, hres]
    simp only [if_neg hprog]
    have hf : fetchPackageInfo reg name version_spec = .error (.networkError []) := by
      simp [fetchPackageInfo, hval, hreg]
    rw [hf]
  · intro fuel rest2 res2 prog2 spec2 hres hprog
    rw [resolveRec, hres]
    simp only [if_pos hprog]
  · exact resolveRec_keeps_skipped reg name

/-- Witness for C9: with an unreachable registry, resolving `a` skips it and
continues with `a` recorded in `in_progress`; a second occurrence of `a` in
the same run fails with the circular-dependency error. -/
theorem c9_network_skip_poisons_name_witness :
    resolveRec (fun _ _ => none) 2
        [(("a").data, ("latest").data), (("a").data, ("latest").data)] [] [] =
      .error (.dependencyError (circularMsg (("a").data))) := by
  have h := c9_network_skip_poisons_name (fun _ _ => none) (("a").data)
    (("latest").data) (by decide) rfl
  have h1 := h.1 1 [(("a").data, ("latest").data)] [] [] (by decide) (by decide)
  have h2 := h.2.1 0 [] [] [("a").data] (("latest").data) (by decide) (by decide)
  rw [h1]
  simpa using h2

theorem prefix_append_cancel {α : Type} (l s t : List α) :
    l ++ s <+: l ++ t ↔ s <+: t := by
  constructor
  · rintro ⟨r, hr⟩
    refine ⟨r, ?_⟩
    have h2 : l ++ (s ++ r) = l ++ t := by
      rw [← List.append_assoc]; exact hr
    exact List.append_cancel_left h2
  · rintro ⟨r, hr⟩
    exact ⟨r, by rw [List.append_assoc, hr]⟩

theorem prefix_pair_iff {α : Type} (w u x y : α) :
    [w, u] <+: [x, y] ↔ w = x ∧ u = y := by
  constructor
  · rintro ⟨r, hr⟩
    have hl : ([w, u] ++ r).length = 2 := by rw [hr]; rfl
    simp at hl
    subst hl
    simp at hr
    exact ⟨hr.1, hr.2⟩
  · rintro ⟨rfl, rfl⟩
    exact ⟨[], rfl⟩

/-- The prefix condition of the `../../etc/passwd` analysis: `l` is a prefix
of `l` with its last two components replaced by `[x, y]` exactly when `l` is
empty, is `[x]`, or already ends in `[x, y]`. -/
theorem prefix_dropLast_two_append {α : Type} (l : List α) (x y : α) :
    l <+: (l.dropLast.dropLast ++ [x, y]) ↔
      (l = [] ∨ l = [x] ∨ [x, y] <:+ l) := by
  induction l using List.reverseRecOn with
  | nil => simp
  | append_singleton as a _ =>
      induction as using List.reverseRecOn with
      | nil =>
          simp only [List.nil_append, List.dropLast_single, List.dropLast_nil,
            List.nil_append]
          constructor
          · rintro ⟨r, hr⟩
            simp only [List.cons_append, List.nil_append, List.cons.injEq] at hr
            obtain ⟨rfl, -⟩ := hr
            right; left; rfl
          · rintro (h | h | h)
            · cases h
            · simp only [List.cons.injEq] at h
              obtain ⟨rfl, -⟩ := h
              exact ⟨[y], rfl⟩
            · rcases h with ⟨t, ht⟩
              have hlen := congrArg List.length ht
              simp at hlen
      | append_singleton bs b _ =>
          rw [List.dropLast_concat, List.dropLast_concat]
          have hform : bs ++ [b] ++ [a] = bs ++ [b, a] := by simp
          rw [hform]
          constructor
          · intro hpre
            have h2 : [b, a] <+: [x, y] := (prefix_append_cancel bs _ _).mp hpre
            have h3 := (prefix_pair_iff b a x y).mp h2
            obtain ⟨rfl, rfl⟩ := h3
            right; right
            exact ⟨bs, rfl⟩
          · rintro (h | h | h)
            · exact absurd (congrArg List.length h) (by simp)
            · exact absurd (congrArg List.length h) (by simp)
            · rcases h with ⟨t, ht⟩
              have hlen : t.length = bs.length := by
                have := congrArg List.length ht
                simp at this
                omega
              have hsplit : t = bs ∧ [x, y] = [b, a] :=
                List.append_inj ht hlen
              obtain ⟨rfl, hxy⟩ := hsplit
              rw [hxy]

/-- C2 counterexample: for base `/` (the filesystem root) the target
`../../etc/passwd` resolves to `/etc/passwd`, which IS inside the base, so
`sanitize_path` returns it instead of raising SecurityError — the claim that
it raises for every choice of base is false. -/
theorem c2_sanitize_path_cex :
    sanitize_path [] (("../../etc/passwd").data) =
      .ok [("etc").data, ("passwd").data] := by decide

/-- C2 amended: `sanitize_path` either returns a path that is a
descendant-or-self of the canonical base or raises SecurityError; for target
`../../etc/passwd` it raises SecurityError for every base except when the
canonical base is the root, is `/etc`, or ends in the components
`etc/passwd` — in those cases the resolution lands inside the base and the
path (the base with its last two components replaced by `etc/passwd`) is
returned. -/
theorem c2_sanitize_path_amended (base : List (List Char)) (target : List Char) :
    (∀ p, sanitize_path base target = .ok p → normalizePath base <+: p) ∧
    (¬ (normalizePath base = [] ∨ normalizePath base = [("etc").data] ∨
        [("etc").data, ("passwd").data] <:+ normalizePath base) →
      sanitize_path base (("../../etc/passwd").data) =
        .error (.securityError
          (("Path traversal detected: ").data ++ ("../../etc/passwd").data))) ∧
    ((normalizePath base = [] ∨ normalizePath base = [("etc").data] ∨
        [("etc").data, ("passwd").data] <:+ normalizePath base) →
      sanitize_path base (("../../etc/passwd").data) =
        .ok ((normalizePath base).dropLast.dropLast ++
          [("etc").data, ("passwd").data])) := by
  have hhead : ¬ ((("../../etc/passwd").data).headD ' ' = '/') := by decide
  have hres : ∀ b : List (List Char),
      List.foldl normStep b (splitSep '/' (("../../etc/passwd").data)) =
        b.dropLast.dropLast ++ [("etc").data, ("passwd").data] := by
    intro b
    have hsplit : splitSep '/' (("../../etc/passwd").data) =
        [("..").data, ("..").data, ("etc").data, ("passwd").data] := by decide
    rw [hsplit]
    show normStep (normStep (normStep (normStep b (("..").data)) (("..").data))
      (("etc").data)) (("passwd").data) = _
    show (b.dropLast.dropLast ++ [("etc").data]) ++ [("passwd").data] = _
    simp
  refine ⟨?_, ?_, ?_⟩
  · intro p hp
    by_cases hpre : normalizePath base <+:
        (if target.headD ' ' = '/' then normalizePath (splitSep '/' target)
         else List.foldl normStep (normalizePath base) (splitSep '/' target))
    · unfold sanitize_path at hp
      rw [if_pos hpre] at hp
      cases hp
      exact hpre
    · unfold sanitize_path at hp
      rw [if_neg hpre] at hp
      cases hp
  · intro hcond
    have hnp : ¬ (normalizePath base <+:
        (normalizePath base).dropLast.dropLast ++ [("etc").data, ("passwd").data]) :=
      fun h => hcond ((prefix_dropLast_two_append _ _ _).mp h)
    unfold sanitize_path
    dsimp only
    rw [if_neg hhead, hres (normalizePath base), if_neg hnp]
  · intro hcond
    have hnp : normalizePath base <+:
        (normalizePath base).dropLast.dropLast ++ [("etc").data, ("passwd").data] :=
      (prefix_dropLast_two_append _ _ _).mpr hcond
    unfold sanitize_path
    dsimp only
    rw [if_neg hhead, hres (normalizePath base), if_pos hnp]

/-- Witness for the amended C2 at the concrete base `/home`: the traversal
target is rejected with SecurityError. -/
theorem c2_sanitize_path_amended_witness :
    sanitize_path [("home").data] (("../../etc/passwd").data) =
      .error (.securityError
        (("Path traversal detected: ").data ++ ("../../etc/passwd").data)) := by
  have h := (c2_sanitize_path_amended [("home").data] []).2.1 (by decide)
  exact h

theorem readChunks_ok (max_size : Nat) :
    ∀ chunks acc data, readChunks max_size chunks acc = .ok data →
      acc.length ≤ max_size →
      data.length ≤ max_size ∧ data <+: acc ++ streamBody chunks := by
  intro chunks
  induction chunks with
  | nil =>
      intro acc data hr hacc
      rw [readChunks] at hr
      cases hr
      exact ⟨hacc, by simp [streamBody]⟩
  | cons c rest ih =>
      intro acc data hr hacc
      rw [readChunks] at hr
      split at hr
      · rename_i hlt
        split at hr
        · rename_i hc
          cases hr
          exact ⟨hacc, List.prefix_append _ _⟩
        · rename_i hc
          split at hr
          · exact Except.noConfusion hr
          · rename_i hover
            have hle : (acc ++ c).length ≤ max_size := Nat.le_of_not_lt hover
            have h2 := ih (acc ++ c) data hr hle
            refine ⟨h2.1, ?_⟩
            have hbody : streamBody (c :: rest) = c ++ streamBody rest := by
              simp only [streamBody, List.takeWhile_cons]
              rw [if_pos (by simpa using hc)]
              simp
            rw [hbody, ← List.append_assoc]
            exact h2.2
      · cases hr
        exact ⟨hacc, List.prefix_append _ _⟩

theorem readChunks_overflow (max_size : Nat) :
    ∀ chunks data, overflows max_size chunks data = true →
    readChunks max_size chunks data =
      .error (.securityError (("Content exceeds size limit").data)) := by
  intro chunks
  induction chunks with
  | nil =>
      intro data h
      rw [overflows] at h
      exact Bool.noConfusion h
  | cons c rest ih =>
      intro data h
      rw [overflows] at h
      simp only [Bool.and_eq_true, Bool.or_eq_true, decide_eq_true_eq] at h
      obtain ⟨⟨hlt, hc⟩, hrest⟩ := h
      rw [readChunks, if_pos hlt, if_neg hc]
      by_cases hover : max_size < (data ++ c).length
      · rw [if_pos hover]
      · rw [if_neg hover]
        cases hrest with
        | inl h1 => exact absurd h1 hover
        | inr h2 => exact ih (data ++ c) h2

/-- C3 counterexample: with limit 2 and a 3-byte body arriving as chunks of
sizes 2 and 1, the read loop exits at exactly the limit and returns the first
2 bytes — the over-limit body is silently truncated instead of raising
SecurityError. -/
theorem c3_fetch_cex :
    fetch (("https").data) (some (("example.com").data)) none [[1, 2], [3]] 2 =
      .ok [1, 2] ∧ (streamBody [[1, 2], [3]]).length = 3 := by decide

/-- C3 amended: `fetch` raises SecurityError when the declared Content-Length
exceeds `max_size`, and raises SecurityError when the streamed bytes strictly
exceed `max_size` mid-transfer (the `overflows` condition: a nonempty chunk
arrives below the limit and carries the total strictly past it), and
consequently never returns more than `max_size` bytes — but when the received
bytes reach exactly `max_size` at a chunk boundary the loop exits and returns
that prefix of a longer body, silently truncating it. -/
theorem c3_fetch_size_limit (hostname : Option (List Char))
    (content_length : Option Int) (chunks : List (List Nat)) (max_size : Nat)
    (hip : ¬ isIPv4 (hostname.getD []) = true) :
    (∀ n, content_length = some n → (max_size : Int) < n →
      fetch (("https").data) hostname content_length chunks max_size =
        .error (.securityError (("Content too large").data))) ∧
    ((∀ n, content_length = some n → n ≤ (max_size : Int)) →
      overflows max_size chunks [] = true →
      fetch (("https").data) hostname content_length chunks max_size =
        .error (.securityError (("Content exceeds size limit").data))) ∧
    (∀ data,
      fetch (("https").data) hostname content_length chunks max_size = .ok data →
      data.length ≤ max_size ∧ data <+: streamBody chunks) := by
  refine ⟨?_, ?_, ?_⟩
  · rintro n rfl hlt
    simp [fetch, hip, hlt]
  · intro hcl hov
    cases content_length with
    | none =>
        simp only [fetch, if_neg (by decide : ¬ ("https").data ≠ ("https").data),
          if_neg hip]
        exact readChunks_overflow max_size chunks [] hov
    | some n =>
        have hle := hcl n rfl
        have hnlt : ¬ (max_size : Int) < n := not_lt.mpr hle
        simp only [fetch, if_neg (by decide : ¬ ("https").data ≠ ("https").data),
          if_neg hip, if_neg hnlt]
        exact readChunks_overflow max_size chunks [] hov
  · intro data hok
    cases content_length with
    | none =>
        simp [fetch, hip] at hok
        have h := readChunks_ok max_size chunks [] data hok (by simp)
        simpa using h
    | some n =>
        by_cases hlt : (max_size : Int) < n
        · simp [fetch, hip, hlt] at hok
        · simp [fetch, hip, hlt] at hok
          have h := readChunks_ok max_size chunks [] data hok (by simp)
          simpa using h

/-- Witness for the amended C3: a declared Content-Length of 100 over a limit
of 10 is rejected with SecurityError, and a single 3-byte chunk against a
limit of 2 overflows mid-transfer and is rejected with SecurityError. -/
theorem c3_fetch_size_limit_witness :
    fetch (("https").data) (some (("example.com").data)) (some 100) [] 10 =
      .error (.securityError (("Content too large").data)) ∧
    overflows 2 [[1, 2, 3]] [] = true ∧
    fetch (("https").data) (some (("example.com").data)) none [[1, 2, 3]] 2 =
      .error (.securityError (("Content exceeds size limit").data)) := by
  refine ⟨(c3_fetch_size_limit (some (("example.com").data)) (some 100) [] 10
    (by decide)).1 100 rfl (by decide), by decide, ?_⟩
  exact (c3_fetch_size_limit (some (("example.com").data)) none [[1, 2, 3]] 2
    (by decide)).2.1 (fun n h => Option.noConfusion h) (by decide)

theorem head_ne_of_ne {s t : List Char} (h : s.headD ' ' ≠ t.headD ' ') : s ≠ t :=
  fun he => h (he ▸ rfl)

theorem take_headD (s t : List Char) (n : Nat) (hn : n ≠ 0)
    (h : s.take n = t) (hne : t ≠ []) : s.headD ' ' = t.headD ' ' := by
  cases s with
  | nil => rw [List.take_nil] at h; exact absurd h.symm hne
  | cons a u =>
      cases n with
      | zero => exact absurd rfl hn
      | succ m =>
          rw [List.take_succ_cons] at h
          rw [← h]
          rfl

theorem compare_versions_parsed (v w : List Char) (pv pw : List Int)
    (hv : parseVer v = some pv) (hw : parseVer w = some pw) :
    compare_versions v w = .ok (cmpInts pv pw) := by
  simp [compare_versions, hv, hw]

theorem not_latest_star (c : Char) (w : List Char)
    (h1 : c ≠ 'l') (h2 : c ≠ '*') :
    ¬(c :: w = ("latest").data ∨ c :: w = ("*").data) := by
  rintro (h | h)
  · have h0 := congrArg (fun l => l.headD ' ') h
    simp only [List.headD_cons] at h0
    exact h1 h0
  · have h0 := congrArg (fun l => l.headD ' ') h
    simp only [List.headD_cons] at h0
    exact h2 h0

theorem not_take_eq (s t : List Char) (n : Nat) (hn : n ≠ 0) (hne : t ≠ [])
    (h : s.headD ' ' ≠ t.headD ' ') : ¬ s.take n = t :=
  fun he => h (take_headD s t n hn he hne)

theorem vs_ge (v w : List Char) :
    version_satisfies v ('>' :: '=' :: w) =
      (match compare_versions v w with
       | .error e => .error e
       | .ok c => .ok (decide (0 ≤ c))) := by
  unfold version_satisfies
  rw [if_neg (not_latest_star '>' _ (by decide) (by decide)),
    if_pos (show List.take 2 ('>' :: '=' :: w) = ((">=").data) from rfl)]
  rfl

theorem vs_le (v w : List Char) :
    version_satisfies v ('<' :: '=' :: w) =
      (match compare_versions v w with
       | .error e => .error e
       | .ok c => .ok (decide (c ≤ 0))) := by
  unfold version_satisfies
  rw [if_neg (not_latest_star '<' _ (by decide) (by decide)),
    if_neg (not_take_eq _ _ 2 (by decide) (by decide)
      (by simp only [List.headD_cons]; decide)),
    if_pos (show List.take 2 ('<' :: '=' :: w) = (("<=").data) from rfl)]
  rfl

theorem head_take_tail (w : List Char) (c : Char) (t : List Char)
    (hw : w.headD ' ' ≠ (t.headD ' '))
    (hne : t ≠ []) : ¬ ((c :: w).take 2 = c :: t) := by
  intro h
  have h2 := congrArg (fun l => l.drop 1) h
  simp only [List.take_succ_cons, List.drop_succ_cons, List.drop_zero] at h2
  exact hw (take_headD w t 1 (by decide) h2 hne)

theorem vs_gt (v w : List Char) (hw : w.headD ' ' ≠ '=') :
    version_satisfies v ('>' :: w) =
      (match compare_versions v w with
       | .error e => .error e
       | .ok c => .ok (decide (0 < c))) := by
  unfold version_satisfies
  rw [if_neg (not_latest_star '>' _ (by decide) (by decide)),
    if_neg (show ¬ List.take 2 ('>' :: w) = ((">=").data) from
      head_take_tail w '>' ('=' :: []) (by simpa using hw) (by decide)),
    if_neg (not_take_eq _ _ 2 (by decide) (by decide)
      (by simp only [List.headD_cons]; decide)),
    if_pos (show List.take 1 ('>' :: w) = ((">").data) from rfl)]
  rfl

theorem vs_lt (v w : List Char) (hw : w.headD ' ' ≠ '=') :
    version_satisfies v ('<' :: w) =
      (match compare_versions v w with
       | .error e => .error e
       | .ok c => .ok (decide (c < 0))) := by
  unfold version_satisfies
  rw [if_neg (not_latest_star '<' _ (by decide) (by decide)),
    if_neg (not_take_eq _ _ 2 (by decide) (by decide)
      (by simp only [List.headD_cons]; decide)),
    if_neg (show ¬ List.take 2 ('<' :: w) = (("<=").data) from
      head_take_tail w '<' ('=' :: []) (by simpa using hw) (by decide)),
    if_neg (not_take_eq _ _ 1 (by decide) (by decide)
      (by simp only [List.headD_cons]; decide)),
    if_pos (show List.take 1 ('<' :: w) = (("<").data) from rfl)]
  rfl

theorem vs_caret (v w : List Char) :
    version_satisfies v ('^' :: w) =
      .ok (decide ((splitSep '.' v).headD [] = (splitSep '.' w).headD [])) := by
  unfold version_satisfies
  rw [if_neg (not_latest_star '^' _ (by decide) (by decide)),
    if_neg (not_take_eq _ _ 2 (by decide) (by decide)
      (by simp only [List.headD_cons]; decide)),
    if_neg (not_take_eq _ _ 2 (by decide) (by decide)
      (by simp only [List.headD_cons]; decide)),
    if_neg (not_take_eq _ _ 1 (by decide) (by decide)
      (by simp only [List.headD_cons]; decide)),
    if_neg (not_take_eq _ _ 1 (by decide) (by decide)
      (by simp only [List.headD_cons]; decide)),
    if_pos (show List.take 1 ('^' :: w) = (("^").data) from rfl)]
  rfl

theorem vs_tilde (v w : List Char) :
    version_satisfies v ('~' :: w) =
      (if (splitSep '.' v).headD [] = (splitSep '.' w).headD [] then
         if 2 ≤ (splitSep '.' v).length then
           if 2 ≤ (splitSep '.' w).length then
             .ok (decide ((splitSep '.' v).getD 1 [] = (splitSep '.' w).getD 1 []))
           else .error .indexError
         else .error .indexError
       else .ok false) := by
  unfold version_satisfies
  rw [if_neg (not_latest_star '~' _ (by decide) (by decide)),
    if_neg (not_take_eq _ _ 2 (by decide) (by decide)
      (by simp only [List.headD_cons]; decide)),
    if_neg (not_take_eq _ _ 2 (by decide) (by decide)
      (by simp only [List.headD_cons]; decide)),
    if_neg (not_take_eq _ _ 1 (by decide) (by decide)
      (by simp only [List.headD_cons]; decide)),
    if_neg (not_take_eq _ _ 1 (by decide) (by decide)
      (by simp only [List.headD_cons]; decide)),
    if_neg (not_take_eq _ _ 1 (by decide) (by decide)
      (by simp only [List.headD_cons]; decide)),
    if_pos (show List.take 1 ('~' :: w) = (("~").data) from rfl)]
  rfl

theorem vs_exact (v s : List Char) (h1 : s ≠ (("latest").data))
    (h2 : s ≠ (("*").data))
    (h3 : s.headD ' ' ∉ (['>', '<', '^', '~'] : List Char)) :
    version_satisfies v s = .ok (decide (v = s)) := by
  simp only [List.mem_cons, List.not_mem_nil, or_false, not_or] at h3
  obtain ⟨hgt, hlt, hcar, htil⟩ := h3
  unfold version_satisfies
  rw [if_neg (by rintro (h | h); exact h1 h; exact h2 h),
    if_neg (fun h => hgt (by
      rw [take_headD s _ 2 (by decide) h (by decide)]; decide)),
    if_neg (fun h => hlt (by
      rw [take_headD s _ 2 (by decide) h (by decide)]; decide)),
    if_neg (fun h => hgt (by
      rw [take_headD s _ 1 (by decide) h (by decide)]; decide)),
    if_neg (fun h => hlt (by
      rw [take_headD s _ 1 (by decide) h (by decide)]; decide)),
    if_neg (fun h => hcar (by
      rw [take_headD s _ 1 (by decide) h (by decide)]; decide)),
    if_neg (fun h => htil (by
      rw [take_headD s _ 1 (by decide) h (by decide)]; decide))]

theorem cmpInts_nonneg_iff (a b : List Int) :
    (0 ≤ cmpInts a b) ↔ specLex a b ≠ .lt := by
  rw [cmpInts_eq_ordToInt_specLex]
  cases specLex a b <;> decide

theorem cmpInts_nonpos_iff (a b : List Int) :
    (cmpInts a b ≤ 0) ↔ specLex a b ≠ .gt := by
  rw [cmpInts_eq_ordToInt_specLex]
  cases specLex a b <;> decide

theorem cmpInts_pos_iff (a b : List Int) :
    (0 < cmpInts a b) ↔ specLex a b = .gt := by
  rw [cmpInts_eq_ordToInt_specLex]
  cases specLex a b <;> decide

theorem cmpInts_neg_iff (a b : List Int) :
    (cmpInts a b < 0) ↔ specLex a b = .lt := by
  rw [cmpInts_eq_ordToInt_specLex]
  cases specLex a b <;> decide

/-- C5: `_version_satisfies` implements exactly the stated dispatch.
`latest`/`*` are always satisfied; `>=`/`<=`/`>`/`<` specs hold according to
the sign of the pairwise left-to-right integer comparison of the dotted
components (`specLex`, comparing only overlapping positions) whenever both
sides parse as dotted integers; `^V` holds iff the major components are
equal; `~V` holds iff major and minor components are both equal (stated on
versions and specs with at least two dotted fields, where the subscripts are
in range); any other spec holds iff the version equals the spec as a
string. The `>`/`<` cases assume the character after the prefix is not `=`,
since such specs dispatch to the `>=`/`<=` branches. -/
theorem c5_version_satisfies_dispatch :
    (∀ v : List Char, version_satisfies v (("latest").data) = .ok true ∧
        version_satisfies v (("*").data) = .ok true) ∧
    (∀ v w pv pw, parseVer v = some pv → parseVer w = some pw →
        version_satisfies v (((">=").data) ++ w) =
          .ok (decide (specLex pv pw ≠ .lt))) ∧
    (∀ v w pv pw, parseVer v = some pv → parseVer w = some pw →
        version_satisfies v ((("<=").data) ++ w) =
          .ok (decide (specLex pv pw ≠ .gt))) ∧
    (∀ v w pv pw, w.headD ' ' ≠ '=' → parseVer v = some pv →
        parseVer w = some pw →
        version_satisfies v ('>' :: w) = .ok (decide (specLex pv pw = .gt))) ∧
    (∀ v w pv pw, w.headD ' ' ≠ '=' → parseVer v = some pv →
        parseVer w = some pw →
        version_satisfies v ('<' :: w) = .ok (decide (specLex pv pw = .lt))) ∧
    (∀ v w : List Char, version_satisfies v ('^' :: w) =
        .ok (decide ((splitSep '.' v).headD [] = (splitSep '.' w).headD []))) ∧
    (∀ v w : List Char, 2 ≤ (splitSep '.' v).length →
        2 ≤ (splitSep '.' w).length →
        version_satisfies v ('~' :: w) =
          .ok (decide ((splitSep '.' v).headD [] = (splitSep '.' w).headD [] ∧
            (splitSep '.' v).getD 1 [] = (splitSep '.' w).getD 1 []))) ∧
    (∀ v s : List Char, s ≠ (("latest").data) → s ≠ (("*").data) →
        s.headD ' ' ∉ (['>', '<', '^', '~'] : List Char) →
        version_satisfies v s = .ok (decide (v = s))) := by
  refine ⟨?_, ?_, ?_, ?_, ?_, ?_, ?_, ?_⟩
  · intro v
    constructor <;> simp [version_satisfies]
  · intro v w pv pw hv hw
    show version_satisfies v ('>' :: '=' :: w) = _
    rw [vs_ge, compare_versions_parsed v w pv pw hv hw]
    show Except.ok (decide (0 ≤ cmpInts pv pw)) = _
    exact congrArg Except.ok (decide_eq_decide.mpr (cmpInts_nonneg_iff pv pw))
  · intro v w pv pw hv hw
    show version_satisfies v ('<' :: '=' :: w) = _
    rw [vs_le, compare_versions_parsed v w pv pw hv hw]
    show Except.ok (decide (cmpInts pv pw ≤ 0)) = _
    exact congrArg Except.ok (decide_eq_decide.mpr (cmpInts_nonpos_iff pv pw))
  · intro v w pv pw hne hv hw
    rw [vs_gt v w hne, compare_versions_parsed v w pv pw hv hw]
    show Except.ok (decide (0 < cmpInts pv pw)) = _
    exact congrArg Except.ok (decide_eq_decide.mpr (cmpInts_pos_iff pv pw))
  · intro v w pv pw hne hv hw
    rw [vs_lt v w hne, compare_versions_parsed v w pv pw hv hw]
    show Except.ok (decide (cmpInts pv pw < 0)) = _
    exact congrArg Except.ok (decide_eq_decide.mpr (cmpInts_neg_iff pv pw))
  · intro v w
    exact vs_caret v w
  · intro v w hv2 hw2
    rw [vs_tilde]
    by_cases hh : (splitSep '.' v).headD [] = (splitSep '.' w).headD []
    · rw [if_pos hh, if_pos hv2, if_pos hw2]
      refine congrArg Except.ok (decide_eq_decide.mpr ?_)
      exact ⟨fun hg => ⟨hh, hg⟩, fun hg => hg.2⟩
    · rw [if_neg hh]
      exact congrArg Except.ok (decide_eq_false (fun hab => hh hab.1)).symm
  · intro v s h1 h2 h3
    exact vs_exact v s h1 h2 h3

/-- Witness for C5 at concrete versions and specs, one per dispatch branch. -/
theorem c5_version_satisfies_dispatch_witness :
    version_satisfies (("1.2.3").data) (("latest").data) = .ok true ∧
    version_satisfies (("1.2.3").data) ((">=1.2.0").data) = .ok true ∧
    version_satisfies (("1.2.3").data) (("<=1.2.0").data) = .ok false ∧
    version_satisfies (("1.2.3").data) ((">1.2").data) = .ok false ∧
    version_satisfies (("1.2.3").data) (("<2").data) = .ok true ∧
    version_satisfies (("1.2.3").data) (("^1.9").data) = .ok true ∧
    version_satisfies (("1.2.3").data) (("~1.2").data) = .ok true ∧
    version_satisfies (("1.2.3").data) (("1.2.4").data) = .ok false := by
  have h := c5_version_satisfies_dispatch
  refine ⟨(h.1 (("1.2.3").data)).1, ?_, ?_, ?_, ?_, ?_, ?_, ?_⟩
  · have := h.2.1 (("1.2.3").data) (("1.2.0").data) [1, 2, 3] [1, 2, 0]
      (by decide) (by decide)
    rw [show (((">=").data) ++ (("1.2.0").data)) = ((">=1.2.0").data) from rfl] at this
    rw [this]; decide
  · have := h.2.2.1 (("1.2.3").data) (("1.2.0").data) [1, 2, 3] [1, 2, 0]
      (by decide) (by decide)
    rw [show ((("<=").data) ++ (("1.2.0").data)) = (("<=1.2.0").data) from rfl] at this
    rw [this]; decide
  · have := h.2.2.2.1 (("1.2.3").data) (("1.2").data) [1, 2, 3] [1, 2]
      (by decide) (by decide) (by decide)
    rw [show ('>' :: (("1.2").data)) = ((">1.2").data) from rfl] at this
    rw [this]; decide
  · have := h.2.2.2.2.1 (("1.2.3").data) (("2").data) [1, 2, 3] [2]
      (by decide) (by decide) (by decide)
    rw [show ('<' :: (("2").data)) = (("<2").data) from rfl] at this
    rw [this]; decide
  · have := h.2.2.2.2.2.1 (("1.2.3").data) (("1.9").data)
    rw [show ('^' :: (("1.9").data)) = (("^1.9").data) from rfl] at this
    rw [this]; decide
  · have := h.2.2.2.2.2.2.1 (("1.2.3").data) (("1.2").data) (by decide) (by decide)
    rw [show ('~' :: (("1.2").data)) = (("~1.2").data) from rfl] at this
    rw [this]; decide
  · have := h.2.2.2.2.2.2.2 (("1.2.3").data) (("1.2.4").data)
      (by decide) (by decide) (by decide)
    rw [this]; decide

theorem cmpInts_antisymm (a : List Int) : ∀ b, cmpInts a b = -(cmpInts b a) := by
  induction a with
  | nil => intro b; cases b <;> simp [cmpInts]
  | cons x xs ih =>
      intro b
      cases b with
      | nil => simp [cmpInts]
      | cons y ys =>
          rcases lt_trichotomy x y with h | h | h
          · simp [cmpInts, h, asymm h]
          · subst h
            simp [cmpInts, lt_irrefl, ih ys]
          · simp [cmpInts, h, asymm h]

theorem cmpInts_strict_trans :
    ∀ (a b c : List Int), cmpInts a b = 1 → cmpInts b c = 1 → cmpInts a c = 1 := by
  intro a
  induction a with
  | nil => intro b c h1 _; simp [cmpInts] at h1
  | cons x xs ih =>
      intro b c h1 h2
      cases b with
      | nil => simp [cmpInts] at h1
      | cons y ys =>
          cases c with
          | nil => simp [cmpInts] at h2
          | cons z zs =>
              by_cases hxy : y < x
              · by_cases hyz : z < y
                · simp [cmpInts, lt_trans hyz hxy]
                · by_cases hzy : y < z
                  · simp [cmpInts, hyz, hzy] at h2
                  · have heq : y = z := le_antisymm (not_lt.mp hyz) (not_lt.mp hzy)
                    subst heq
                    simp [cmpInts, hxy]
              · by_cases hxy2 : x < y
                · simp [cmpInts, hxy, hxy2] at h1
                · have heq : x = y := le_antisymm (not_lt.mp hxy) (not_lt.mp hxy2)
                  subst heq
                  simp only [cmpInts, gt_iff_lt, lt_irrefl, if_false] at h1
                  by_cases hxz : z < x
                  · simp [cmpInts, hxz]
                  · by_cases hxz2 : x < z
                    · simp [cmpInts, hxz2, asymm hxz2] at h2
                    · have heq2 : x = z := le_antisymm (not_lt.mp hxz) (not_lt.mp hxz2)
                      subst heq2
                      simp only [cmpInts, gt_iff_lt, lt_irrefl, if_false] at h2 ⊢
                      exact ih ys zs h1 h2

theorem cmpInts_nonneg_trans_eqlen :
    ∀ (a b c : List Int), a.length = b.length → b.length = c.length →
      0 ≤ cmpInts a b → 0 ≤ cmpInts b c → 0 ≤ cmpInts a c := by
  intro a
  induction a with
  | nil =>
      intro b c _ _ _ _
      cases c <;> simp [cmpInts]
  | cons x xs ih =>
      intro b c hab hbc h1 h2
      cases b with
      | nil => simp at hab
      | cons y ys =>
          cases c with
          | nil => simp at hbc
          | cons z zs =>
              simp only [List.length_cons, Nat.add_right_cancel_iff] at hab hbc
              by_cases hxy : y < x
              · by_cases hyz : z < y
                · simp [cmpInts, lt_trans hyz hxy]
                · by_cases hzy : y < z
                  · simp [cmpInts, hyz, hzy] at h2
                  · have heq : y = z := le_antisymm (not_lt.mp hyz) (not_lt.mp hzy)
                    subst heq
                    simp [cmpInts, hxy]
              · by_cases hxy2 : x < y
                · simp [cmpInts, hxy, hxy2] at h1
                · have heq : x = y := le_antisymm (not_lt.mp hxy) (not_lt.mp hxy2)
                  subst heq
                  simp only [cmpInts, gt_iff_lt, lt_irrefl, if_false] at h1
                  by_cases hxz : z < x
                  · simp [cmpInts, hxz]
                  · by_cases hxz2 : x < z
                    · simp [cmpInts, hxz2, asymm hxz2] at h2
                    · have heq2 : x = z := le_antisymm (not_lt.mp hxz) (not_lt.mp hxz2)
                      subst heq2
                      simp only [cmpInts, gt_iff_lt, lt_irrefl, if_false] at h2 ⊢
                      exact ih ys zs hab hbc h1 h2

/-- C7 counterexample: non-strict transitivity of `_compare_versions` fails
on well-formed dotted-numeric inputs with different field counts:
`1.5 >= 1` and `1 >= 1.9` (both compare as 0 on the overlap), yet
`1.5 < 1.9`. -/
theorem c7_compare_versions_cex :
    compare_versions (("1.5").data) (("1").data) = .ok 0 ∧
    compare_versions (("1").data) (("1.9").data) = .ok 0 ∧
    compare_versions (("1.5").data) (("1.9").data) = .ok (-1) := by decide

/-- C7 amended: on well-formed dotted-numeric inputs `_compare_versions` is
antisymmetric, and the strict order is transitive even across different
field counts; transitivity of the non-strict order holds when the three
inputs have equal field counts, but fails in general when field counts
differ (see the counterexample). -/
theorem c7_compare_versions_order (a b c : List Char) (pa pb pc : List Int)
    (ha : parseVer a = some pa) (hb : parseVer b = some pb)
    (hc : parseVer c = some pc) :
    (∀ x, compare_versions a b = .ok x → compare_versions b a = .ok (-x)) ∧
    (compare_versions a b = .ok 1 → compare_versions b c = .ok 1 →
      compare_versions a c = .ok 1) ∧
    (pa.length = pb.length → pb.length = pc.length →
      ∀ x y, compare_versions a b = .ok x → compare_versions b c = .ok y →
        0 ≤ x → 0 ≤ y →
        ∃ z, compare_versions a c = .ok z ∧ 0 ≤ z) := by
  have hab := compare_versions_parsed a b pa pb ha hb
  have hba := compare_versions_parsed b a pb pa hb ha
  have hbc := compare_versions_parsed b c pb pc hb hc
  have hac := compare_versions_parsed a c pa pc ha hc
  refine ⟨?_, ?_, ?_⟩
  · intro x hx
    rw [hab] at hx
    have ex : cmpInts pa pb = x := by injection hx
    rw [hba, cmpInts_antisymm pb pa, ex]
  · intro h1 h2
    rw [hab] at h1
    rw [hbc] at h2
    have e1 : cmpInts pa pb = 1 := by injection h1
    have e2 : cmpInts pb pc = 1 := by injection h2
    rw [hac]
    exact congrArg Except.ok (cmpInts_strict_trans pa pb pc e1 e2)
  · intro hl1 hl2 x y hx hy hx0 hy0
    rw [hab] at hx
    rw [hbc] at hy
    have ex : cmpInts pa pb = x := by injection hx
    have ey : cmpInts pb pc = y := by injection hy
    refine ⟨cmpInts pa pc, hac, ?_⟩
    exact cmpInts_nonneg_trans_eqlen pa pb pc hl1 hl2
      (by rw [ex]; exact hx0) (by rw [ey]; exact hy0)

/-- Witness for the amended C7 at concrete versions with differing field
counts. -/
theorem c7_compare_versions_order_witness :
    compare_versions (("2.1").data) (("3.5").data) = .ok (-1) ∧
    compare_versions (("3.5").data) (("1").data) = .ok 1 := by
  have h := c7_compare_versions_order (("3.5").data) (("2.1").data)
    (("1").data) [3, 5] [2, 1] [1] (by decide) (by decide) (by decide)
  exact ⟨h.1 1 (by decide), h.2.1 (by decide) (by decide)⟩

theorem joinSep_splitSep (sep : Char) (l : List Char) :
    joinSep sep (splitSep sep l) = l := by
  induction l with
  | nil => rfl
  | cons c rest ih =>
      rw [splitSep]
      rcases h : splitSep sep rest with _ | ⟨r, rs⟩
      · exact absurd h (splitSep_ne_nil sep rest)
      · rw [h] at ih
        by_cases hc : c = sep
        · subst hc
          rw [if_pos rfl]
          show c :: joinSep c (r :: rs) = c :: rest
          rw [ih]
        · rw [if_neg hc]
          cases rs with
          | nil =>
              show c :: r = c :: rest
              rw [show r = rest from ih]
          | cons s ss =>
              show (c :: r) ++ sep :: joinSep sep (s :: ss) = c :: rest
              show c :: (r ++ sep :: joinSep sep (s :: ss)) = c :: rest
              rw [show r ++ sep :: joinSep sep (s :: ss) = rest from ih]

theorem splitFirst_none (sep : Char) (l : List Char)
    (h : (splitFirst sep l).2 = none) :
    (splitFirst sep l).1 = l ∧ sep ∉ l := by
  induction l with
  | nil => exact ⟨rfl, by simp⟩
  | cons c rest ih =>
      rw [splitFirst] at h ⊢
      by_cases hc : c = sep
      · rw [if_pos hc] at h
        cases h
      · rw [if_neg hc] at h ⊢
        have := ih h
        refine ⟨by simp [this.1], ?_⟩
        simp only [List.mem_cons, not_or]
        exact ⟨fun he => hc he.symm, this.2⟩

theorem splitFirst_some (sep : Char) (l p : List Char)
    (h : (splitFirst sep l).2 = some p) :
    l = (splitFirst sep l).1 ++ sep :: p ∧ sep ∉ (splitFirst sep l).1 := by
  induction l with
  | nil => rw [splitFirst] at h; cases h
  | cons c rest ih =>
      rw [splitFirst] at h ⊢
      by_cases hc : c = sep
      · rw [if_pos hc] at h ⊢
        cases h
        subst hc
        exact ⟨rfl, by simp⟩
      · rw [if_neg hc] at h ⊢
        have := ih h
        constructor
        · show c :: rest = c :: ((splitFirst sep rest).1 ++ sep :: p)
          rw [← this.1]
        · simp only [List.mem_cons, not_or]
          exact ⟨fun he => hc he.symm, this.2⟩

theorem splitSep_cons_ne (sep : Char) (c : Char) (y : List Char) (hc : c ≠ sep) :
    splitSep sep (c :: y) =
      (c :: (splitSep sep y).headD []) :: (splitSep sep y).tail := by
  rw [splitSep, if_neg hc]

theorem splitSep_append_sep (sep : Char) (x y : List Char) (hx : sep ∉ x) :
    splitSep sep (x ++ sep :: y) = x :: splitSep sep y := by
  induction x with
  | nil =>
      show splitSep sep (sep :: y) = [] :: splitSep sep y
      rw [splitSep, if_pos rfl]
  | cons c t ih =>
      have hc : c ≠ sep := fun he => hx (by simp [he])
      have ht : sep ∉ t := fun he => hx (by simp [he])
      show splitSep sep (c :: (t ++ sep :: y)) = (c :: t) :: splitSep sep y
      rw [splitSep_cons_ne sep c (t ++ sep :: y) hc, ih ht]
      rfl

theorem splitSep_append_head (sep : Char) (x y : List Char) (hx : sep ∉ x) :
    splitSep sep (x ++ y) =
      (x ++ (splitSep sep y).headD []) :: (splitSep sep y).tail := by
  induction x with
  | nil =>
      rcases h : splitSep sep y with _ | ⟨r, rs⟩
      · exact absurd h (splitSep_ne_nil sep y)
      · simp [h]
  | cons c t ih =>
      have hc : c ≠ sep := fun he => hx (by simp [he])
      have ht : sep ∉ t := fun he => hx (by simp [he])
      show splitSep sep (c :: (t ++ y)) = _
      rw [splitSep_cons_ne sep c (t ++ y) hc, ih ht]
      rfl


theorem semverNum_digits (s : List Char) (h : semverNum s = true) :
    s ≠ [] ∧ s.all Char.isDigit = true := by
  simp only [semverNum, decide_eq_true_eq] at h
  rcases h with rfl | ⟨h1, h2, _⟩
  · exact ⟨by decide, by decide⟩
  · exact ⟨h1, h2⟩

theorem not_mem_of_all_digits (s : List Char) (h : s.all Char.isDigit = true)
    (c : Char) (hc : c.isDigit = false) : c ∉ s :=
  fun hm => by rw [List.all_eq_true.mp h c hm] at hc; cases hc

theorem pyInt_digits_dash (cc w : List Char) (h1 : cc ≠ [])
    (h2 : cc.all Char.isDigit = true) : pyInt (cc ++ '-' :: w) = none := by
  cases cc with
  | nil => exact absurd rfl h1
  | cons d ds =>
      have hd : d.isDigit = true := by
        have := List.all_eq_true.mp h2 d (by simp)
        exact this
      have hdne : ¬ d = '-' := fun he => by rw [he] at hd; cases hd
      show pyInt (d :: (ds ++ '-' :: w)) = none
      rw [pyInt, if_neg hdne, if_neg ?_]
      intro hall
      have := List.all_eq_true.mp hall '-' (by simp)
      cases this

theorem mapPyInt_none (l : List (List Char)) (x : List Char) (hx : x ∈ l)
    (hfail : pyInt x = none) : mapPyInt l = none := by
  induction l with
  | nil => cases hx
  | cons hd tl ih =>
      rcases List.mem_cons.mp hx with rfl | hmem
      · simp [mapPyInt, hfail]
      · cases hh : pyInt hd with
        | none => simp [mapPyInt, hh]
        | some vv => simp [mapPyInt, hh, ih hmem]

theorem validate_pre_decomp (v : List Char) (hval : validate_version v = true)
    (hpre : '-' ∈ (splitSep '+' v).headD []) :
    ∃ main q, v = main ++ '-' :: q ∧ semverMain main = true := by
  have hv2 : joinSep '+' (splitSep '+' v) = v := joinSep_splitSep '+' v
  unfold validate_version at hval
  rcases hsp : splitSep '+' v with _ | ⟨core, parts⟩
  · exact absurd hsp (splitSep_ne_nil _ _)
  · rw [hsp] at hval hv2 hpre
    have hpre2 : '-' ∈ core := hpre
    cases parts with
    | nil =>
        have hcore : semverCore core = true := hval
        have hvcore : core = v := hv2
        unfold semverCore at hcore
        rcases hsf : splitFirst '-' core with ⟨main, o⟩
        rw [hsf] at hcore
        cases o with
        | none =>
            have hn := splitFirst_none '-' core (by rw [hsf])
            rw [hsf] at hn
            exact absurd hpre2 (hn.1 ▸ hn.2)
        | some p =>
            have hs := splitFirst_some '-' core p (by rw [hsf])
            rw [hsf] at hs
            have hcore2 : (semverMain main &&
                (splitSep '.' p).all semverPreId) = true := hcore
            simp only [Bool.and_eq_true] at hcore2
            refine ⟨main, p, ?_, hcore2.1⟩
            rw [← hvcore]
            exact hs.1
    | cons build rest2 =>
        cases rest2 with
        | nil =>
            have hcb : (semverCore core &&
                (splitSep '.' build).all semverBuildId) = true := hval
            simp only [Bool.and_eq_true] at hcb
            have hcore : semverCore core = true := hcb.1
            have hvcore : core ++ '+' :: build = v := hv2
            unfold semverCore at hcore
            rcases hsf : splitFirst '-' core with ⟨main, o⟩
            rw [hsf] at hcore
            cases o with
            | none =>
                have hn := splitFirst_none '-' core (by rw [hsf])
                rw [hsf] at hn
                exact absurd hpre2 (hn.1 ▸ hn.2)
            | some p =>
                have hs := splitFirst_some '-' core p (by rw [hsf])
                rw [hsf] at hs
                have hcore2 : (semverMain main &&
                    (splitSep '.' p).all semverPreId) = true := hcore
                simp only [Bool.and_eq_true] at hcore2
                refine ⟨main, p ++ '+' :: build, ?_, hcore2.1⟩
                rw [← hvcore, hs.1]
                simp
        | cons _ _ => exact Bool.noConfusion hval

theorem parseVer_pre_none (v : List Char) (hval : validate_version v = true)
    (hpre : '-' ∈ (splitSep '+' v).headD []) : parseVer v = none := by
  obtain ⟨main, q, hv, hmain⟩ := validate_pre_decomp v hval hpre
  unfold semverMain at hmain
  rcases hms : splitSep '.' main with _ | ⟨a, _ | ⟨b, _ | ⟨cc, _ | ⟨d, ds⟩⟩⟩⟩ <;>
    rw [hms] at hmain
  · exact Bool.noConfusion hmain
  · exact Bool.noConfusion hmain
  · exact Bool.noConfusion hmain
  case cons.cons.cons.nil =>
    have hrec : joinSep '.' [a, b, cc] = main := by
      rw [← hms]; exact joinSep_splitSep '.' main
    have hmainrec : main = a ++ '.' :: (b ++ '.' :: cc) := by
      rw [← hrec]; rfl
    rw [Bool.and_eq_true, Bool.and_eq_true] at hmain
    obtain ⟨⟨ha, hb⟩, hcc⟩ := hmain
    obtain ⟨hane, hadig⟩ := semverNum_digits a ha
    obtain ⟨hbne, hbdig⟩ := semverNum_digits b hb
    obtain ⟨hccne, hccdig⟩ := semverNum_digits cc hcc
    have hdota : '.' ∉ a := not_mem_of_all_digits a hadig '.' (by decide)
    have hdotb : '.' ∉ b := not_mem_of_all_digits b hbdig '.' (by decide)
    have hdotcc : '.' ∉ cc := not_mem_of_all_digits cc hccdig '.' (by decide)
    have hveq : v = a ++ '.' :: (b ++ '.' :: (cc ++ '-' :: q)) := by
      rw [hv, hmainrec]
      simp
    have hsplit : splitSep '.' v =
        a :: b :: (cc ++ (splitSep '.' ('-' :: q)).headD []) ::
          (splitSep '.' ('-' :: q)).tail := by
      rw [hveq, splitSep_append_sep '.' a _ hdota,
        splitSep_append_sep '.' b _ hdotb,
        splitSep_append_head '.' cc _ hdotcc]
    have hhead : (splitSep '.' ('-' :: q)).headD [] =
        '-' :: (splitSep '.' q).headD [] := by
      rw [splitSep_cons_ne '.' '-' q (by decide)]
      rfl
    have hfail : pyInt (cc ++ (splitSep '.' ('-' :: q)).headD []) = none := by
      rw [hhead]
      exact pyInt_digits_dash cc _ hccne hccdig
    unfold parseVer
    rw [hsplit]
    exact mapPyInt_none _ _ (by simp) hfail
  case cons.cons.cons.cons => exact Bool.noConfusion hmain

theorem compare_versions_left_fail (v : List Char) (hv : parseVer v = none) :
    ∀ t, compare_versions v t = .error .valueError := by
  intro t
  simp [compare_versions, hv]

/-- C8 counterexample: version `1` (fewer than two dotted fields) against
spec `~2.0` returns `False` without any exception — Python's short-circuit
`and` never evaluates the out-of-range subscript when the major components
differ, so the claimed universal IndexError for short versions under `~V`
specs is false. -/
theorem c8_tilde_short_circuit_cex :
    version_satisfies (("1").data) (("~2.0").data) = .ok false := by decide

/-- C8 amended: ordering comparison is not total on the versions
`validate_version` accepts — every accepted version with a prerelease
component raises `ValueError` (failed `int(...)`) under any ordering spec
(`>=V`, `<=V`, `>V`, `<V`); and a `~V` spec raises `IndexError` by
out-of-range subscript when the version has fewer than two dotted fields AND
its major component equals the spec's, while a differing major component is
short-circuited to `False` without indexing. -/
theorem c8_version_satisfies_partiality :
    (∀ v s w : List Char, validate_version v = true →
        '-' ∈ ((splitSep '+' v).headD []) →
        (s = (((">=").data) ++ w) ∨ s = ((("<=").data) ++ w) ∨
         s = ('>' :: w) ∨ s = ('<' :: w)) →
        version_satisfies v s = .error .valueError) ∧
    (∀ v w : List Char, (splitSep '.' v).length < 2 →
        (splitSep '.' v).headD [] = (splitSep '.' w).headD [] →
        version_satisfies v ('~' :: w) = .error .indexError) ∧
    (∀ v w : List Char,
        (splitSep '.' v).headD [] ≠ (splitSep '.' w).headD [] →
        version_satisfies v ('~' :: w) = .ok false) := by
  refine ⟨?_, ?_, ?_⟩
  · intro v s w hval hpre hs
    have hv : parseVer v = none := parseVer_pre_none v hval hpre
    have hcmp := compare_versions_left_fail v hv
    rcases hs with rfl | rfl | rfl | rfl
    · show version_satisfies v ('>' :: '=' :: w) = _
      rw [vs_ge, hcmp w]
    · show version_satisfies v ('<' :: '=' :: w) = _
      rw [vs_le, hcmp w]
    · by_cases hwe : w.headD ' ' = '='
      · cases w with
        | nil => cases hwe
        | cons c t =>
            rw [List.headD_cons] at hwe
            subst hwe
            rw [vs_ge, hcmp t]
      · rw [vs_gt v w hwe, hcmp w]
    · by_cases hwe : w.headD ' ' = '='
      · cases w with
        | nil => cases hwe
        | cons c t =>
            rw [List.headD_cons] at hwe
            subst hwe
            rw [vs_le, hcmp t]
      · rw [vs_lt v w hwe, hcmp w]
  · intro v w hlen hhead
    rw [vs_tilde, if_pos hhead, if_neg (by omega)]
  · intro v w hhead
    rw [vs_tilde, if_neg hhead]

/-- Witness for the amended C8: `1.2.3-alpha` (accepted by
`validate_version`) raises ValueError under `>=1.0.0`; version `1` under
`~1.0` raises IndexError; version `1` under `~3.0` short-circuits to
false. -/
theorem c8_version_satisfies_partiality_witness :
    version_satisfies (("1.2.3-alpha").data) ((">=1.0.0").data) =
      .error .valueError ∧
    version_satisfies (("1").data) (("~1.0").data) = .error .indexError ∧
    version_satisfies (("1").data) (("~3.0").data) = .ok false := by
  have h := c8_version_satisfies_partiality
  refine ⟨?_, ?_, ?_⟩
  · have := h.1 (("1.2.3-alpha").data) ((">=1.0.0").data) (("1.0.0").data)
      (by decide) (by decide) (Or.inl (by decide))
    exact this
  · have := h.2.1 (("1").data) (("1.0").data) (by decide) (by decide)
    rw [show ('~' :: (("1.0").data)) = (("~1.0").data) from rfl] at this
    exact this
  · have := h.2.2 (("1").data) (("3.0").data) (by decide)
    rw [show ('~' :: (("3.0").data)) = (("~3.0").data) from rfl] at this
    exact this

/-- Conditions on a dependency/script key under which the written `key =
"value"` line parses back to the same key: nonempty, free of newlines,
equals signs and surrounding whitespace, and not starting a comment. -/
def goodKey (k : List Char) : Prop :=
  k ≠ [] ∧ '\n' ∉ k ∧ '=' ∉ k ∧ k.headD ' ' ≠ '#' ∧
  (k.headD ' ').isWhitespace = false ∧ (k.getLastD ' ').isWhitespace = false

instance (k : List Char) : Decidable (goodKey k) := by
  unfold goodKey
  infer_instance

theorem dropWhile_head_false (p : Char → Bool) (l : List Char)
    (hne : l ≠ []) (h : p (l.headD ' ') = false) : l.dropWhile p = l := by
  cases l with
  | nil => exact absurd rfl hne
  | cons a t =>
      rw [List.headD_cons] at h
      rw [List.dropWhile_cons, if_neg (by rw [h]; exact Bool.noConfusion)]

theorem headD_reverse (l : List Char) (d : Char) :
    l.reverse.headD d = l.getLastD d := by
  rw [List.headD_eq_head?, List.head?_reverse, List.getLastD_eq_getLast?]

theorem trimR_last_false (l : List Char) (hne : l ≠ [])
    (h : (l.getLastD ' ').isWhitespace = false) :
    (l.reverse.dropWhile Char.isWhitespace).reverse = l := by
  rw [dropWhile_head_false Char.isWhitespace l.reverse
    (by simpa using hne) (by rw [headD_reverse]; exact h)]
  exact List.reverse_reverse l

theorem stripChars_eq (l : List Char) (hne : l ≠ [])
    (h1 : ((l.headD ' ').isWhitespace) = false)
    (h2 : ((l.getLastD ' ').isWhitespace) = false) : stripChars l = l := by
  unfold stripChars
  rw [dropWhile_head_false Char.isWhitespace l hne h1]
  exact trimR_last_false l hne h2

theorem headD_append (k rest : List Char) (hk : k ≠ []) :
    (k ++ rest).headD ' ' = k.headD ' ' := by
  cases k with
  | nil => exact absurd rfl hk
  | cons a t => rfl

theorem getLastD_append_single (l : List Char) (a : Char) :
    ∀ d, (l ++ [a]).getLastD d = a := by
  induction l with
  | nil => intro d; rfl
  | cons c t ih =>
      intro d
      rw [List.cons_append, List.getLastD_cons, ih c]

theorem splitFirst_append (sep : Char) (x y : List Char) (hx : sep ∉ x) :
    splitFirst sep (x ++ sep :: y) = (x, some y) := by
  induction x with
  | nil =>
      show splitFirst sep (sep :: y) = ([], some y)
      rw [splitFirst, if_pos rfl]
  | cons c t ih =>
      have hc : c ≠ sep := fun he => hx (by simp [he])
      have ht : sep ∉ t := fun he => hx (by simp [he])
      show splitFirst sep (c :: (t ++ sep :: y)) = (c :: t, some y)
      rw [splitFirst, if_neg hc, ih ht]

/-- The assignment a `key = value` line performs in section `sec`. -/
def secAssign (sec : List Char) (r : MRecord) (key : List Char) (v : PyVal) :
    MRecord :=
  if sec = ("package").data then setPkgField r key v
  else if sec = ("dependencies").data then
    { r with dependencies := dictInsert r.dependencies key v }
  else if sec = ("dev-dependencies").data then
    { r with dev_dependencies := dictInsert r.dev_dependencies key v }
  else if sec = ("scripts").data then
    { r with scripts := dictInsert r.scripts key v }
  else r

theorem strip_key (k : List Char) (hk : goodKey k) :
    stripChars (k ++ [' ']) = k := by
  obtain ⟨hkne, -, -, -, hkhw, hklw⟩ := hk
  unfold stripChars
  rw [dropWhile_head_false Char.isWhitespace (k ++ [' '])
    (by simp) (by rw [headD_append k _ hkne]; exact hkhw)]
  rw [show (k ++ [' ']).reverse = ' ' :: k.reverse from by simp]
  rw [List.dropWhile_cons, if_pos (by decide)]
  rw [dropWhile_head_false Char.isWhitespace k.reverse
    (by simpa using hkne) (by rw [headD_reverse]; exact hklw)]
  exact List.reverse_reverse k

theorem strip_val (v : List Char) :
    stripChars (' ' :: '\"' :: (v ++ ['\"'])) = '\"' :: (v ++ ['\"']) := by
  unfold stripChars
  rw [List.dropWhile_cons, if_pos (by decide),
    List.dropWhile_cons, if_neg (by decide)]
  exact trimR_last_false _ (by simp)
    (by rw [show ('\"' :: (v ++ ['\"'])) = ('\"' :: v) ++ ['\"'] from rfl,
          getLastD_append_single]
        decide)

theorem parseValue_quoted (jl : List Char → List (List Char)) (v : List Char) :
    parseValue jl ('\"' :: (v ++ ['\"'])) = .str v := by
  unfold parseValue
  rw [if_pos ⟨by rw [List.headD_cons], by
    rw [show ('\"' :: (v ++ ['\"'])) = ('\"' :: v) ++ ['\"'] from rfl,
      getLastD_append_single]⟩]
  rw [show ('\"' :: (v ++ ['\"'])).drop 1 = v ++ ['\"'] from rfl,
    List.dropLast_concat]

theorem tomlStep_kv (jl : List Char → List (List Char)) (sec : List Char)
    (r : MRecord) (k v : List Char) (hk : goodKey k) :
    tomlStep jl (some sec, r) (kvLine k v) =
      (some sec, secAssign sec r k (.str v)) := by
  obtain ⟨hkne, hknl, hkeq, hkhash, hkhw, hklw⟩ := hk
  have hhead : (kvLine k v).headD ' ' = k.headD ' ' := by
    rw [show kvLine k v = k ++ ([' ', '=', ' ', '\"'] ++ v ++ ['\"']) from
      by simp [kvLine]]
    exact headD_append _ _ hkne
  have hlast : (kvLine k v).getLastD ' ' = '\"' := by
    rw [show kvLine k v = (k ++ [' ', '=', ' ', '\"'] ++ v) ++ ['\"'] from
      by simp [kvLine]]
    exact getLastD_append_single _ _ _
  have hlne : kvLine k v ≠ [] :=
    fun h => absurd (h ▸ hlast) (by decide)
  have hstrip : stripChars (kvLine k v) = kvLine k v :=
    stripChars_eq _ hlne (by rw [hhead]; exact hkhw) (by rw [hlast]; decide)
  have hsf : splitFirst '=' (kvLine k v) =
      (k ++ [' '], some (' ' :: '\"' :: (v ++ ['\"']))) := by
    rw [show kvLine k v = (k ++ [' ']) ++ '=' :: (' ' :: '\"' :: (v ++ ['\"']))
      from by simp [kvLine]]
    refine splitFirst_append '=' _ _ ?_
    intro h
    rcases List.mem_append.mp h with h | h
    · exact hkeq h
    · exact absurd (List.mem_singleton.mp h) (by decide)
  have hmem : '=' ∈ kvLine k v := by
    simp [kvLine]
  unfold tomlStep
  dsimp only
  rw [hstrip]
  rw [if_neg hlne]
  rw [if_neg (fun he => hkhash (by rw [hhead] at he; exact he))]
  rw [if_neg (fun hc => absurd (by rw [hlast] at hc; exact hc.2 : '\"' = ']')
    (by decide))]
  rw [if_pos hmem, hsf]
  dsimp only
  rw [Option.getD_some, strip_key k ⟨hkne, hknl, hkeq, hkhash, hkhw, hklw⟩,
    strip_val v, parseValue_quoted jl v]
  unfold secAssign
  split_ifs <;> rfl

theorem tomlStep_header_package (jl : List Char → List (List Char))
    (st : Option (List Char) × MRecord) :
    tomlStep jl st (("[package]").data) = (some (("package").data), st.2) := by rfl

theorem tomlStep_header_files (jl : List Char → List (List Char))
    (st : Option (List Char) × MRecord) :
    tomlStep jl st (("[package.files]").data) =
      (some (("package.files").data), st.2) := by rfl

theorem tomlStep_header_deps (jl : List Char → List (List Char))
    (st : Option (List Char) × MRecord) :
    tomlStep jl st (("[dependencies]").data) =
      (some (("dependencies").data), st.2) := by rfl

theorem tomlStep_header_devdeps (jl : List Char → List (List Char))
    (st : Option (List Char) × MRecord) :
    tomlStep jl st (("[dev-dependencies]").data) =
      (some (("dev-dependencies").data), st.2) := by rfl

theorem tomlStep_header_scripts (jl : List Char → List (List Char))
    (st : Option (List Char) × MRecord) :
    tomlStep jl st (("[scripts]").data) = (some (("scripts").data), st.2) := by
  rfl

theorem tomlStep_blank (jl : List Char → List (List Char))
    (st : Option (List Char) × MRecord) : tomlStep jl st [] = st := by rfl

theorem getLastD_irrel (y : List Char) (hy : y ≠ []) (c d : Char) :
    y.getLastD c = y.getLastD d := by
  cases y with
  | nil => exact absurd rfl hy
  | cons a t => rw [List.getLastD_cons, List.getLastD_cons]

theorem getLastD_append_right (x y : List Char) (hy : y ≠ []) :
    ∀ d, (x ++ y).getLastD d = y.getLastD d := by
  induction x with
  | nil => intro d; rfl
  | cons c t ih =>
      intro d
      rw [List.cons_append, List.getLastD_cons, ih c, getLastD_irrel y hy c d]

theorem tomlStep_keywords (jl : List Char → List (List Char)) (r : MRecord)
    (out : List Char) (h1 : out.headD ' ' = '[') (h2 : out.getLastD ' ' = ']') :
    tomlStep jl (some (("package").data), r) (("keywords = ").data ++ out) =
      (some (("package").data),
        setPkgField r (("keywords").data) (.arr (jl out))) := by
  have hout_ne : out ≠ [] := by
    intro h
    rw [h] at h1
    exact absurd h1 (by decide)
  have hhead : ((("keywords = ").data ++ out).headD ' ') = 'k' :=
    headD_append _ _ (by decide)
  have hlast : ((("keywords = ").data ++ out).getLastD ' ') = ']' := by
    rw [getLastD_append_right _ out hout_ne ' ']
    exact h2
  have hne : (("keywords = ").data ++ out) ≠ [] := by simp
  have hstrip : stripChars ((("keywords = ").data ++ out)) =
      (("keywords = ").data ++ out) :=
    stripChars_eq _ hne (by rw [hhead]; decide) (by rw [hlast]; decide)
  have hsf : splitFirst '=' ((("keywords = ").data ++ out)) =
      ((("keywords ").data), some (' ' :: out)) := by
    rw [show ((("keywords = ").data ++ out)) =
      (("keywords ").data) ++ '=' :: (' ' :: out) from by simp]
    exact splitFirst_append '=' _ _ (by decide)
  have hrawv : stripChars (' ' :: out) = out := by
    unfold stripChars
    rw [List.dropWhile_cons, if_pos (by decide),
      dropWhile_head_false Char.isWhitespace out hout_ne (by rw [h1]; decide)]
    exact trimR_last_false out hout_ne (by rw [h2]; decide)
  have hpv : parseValue jl out = .arr (jl out) := by
    unfold parseValue
    rw [if_neg (fun hc => absurd (h1 ▸ hc.1 : '[' = '\"') (by decide)),
      if_pos ⟨h1, h2⟩]
  unfold tomlStep
  dsimp only
  rw [hstrip]
  rw [if_neg hne]
  rw [if_neg (fun he => absurd (hhead ▸ he : 'k' = '#') (by decide))]
  rw [if_neg (fun hc => absurd (hhead ▸ hc.1 : 'k' = '[') (by decide))]
  rw [if_pos (show '=' ∈ (("keywords = ").data ++ out) from by
    refine List.mem_append.mpr (Or.inl ?_)
    decide)]
  rw [hsf]
  dsimp only
  rw [Option.getD_some, hrawv, hpv,
    show stripChars ((("keywords ").data)) = (("keywords").data) from by decide]
  rw [if_pos rfl]

theorem tomlStep_fileLine (jl : List Char → List (List Char)) (r : MRecord)
    (f : List Char) :
    tomlStep jl (some (("package.files").data), r) (fileLine f) =
      (some (("package.files").data), r) := by
  have hstrip : stripChars (fileLine f) = '\"' :: (f ++ ['\"', ',']) := by
    unfold stripChars
    rw [show fileLine f = ' ' :: ' ' :: '\"' :: (f ++ ['\"', ',']) from by
      simp [fileLine]]
    rw [List.dropWhile_cons, if_pos (by decide),
      List.dropWhile_cons, if_pos (by decide),
      List.dropWhile_cons, if_neg (by decide)]
    refine trimR_last_false _ (by simp) ?_
    rw [show ('\"' :: (f ++ ['\"', ','])) = ('\"' :: (f ++ ['\"'])) ++ [','] from
      by simp]
    rw [getLastD_append_single]
    decide
  unfold tomlStep
  dsimp only
  rw [hstrip]
  rw [if_neg (by simp)]
  rw [if_neg (by rw [List.headD_cons]; decide)]
  rw [if_neg (fun hc => absurd (by rw [List.headD_cons] at hc; exact hc.1 :
    ('\"' : Char) = '[') (by decide))]
  by_cases hmem : '=' ∈ '\"' :: (f ++ ['\"', ','])
  · rw [if_pos hmem]
    rw [if_neg (by decide), if_neg (by decide), if_neg (by decide),
      if_neg (by decide)]
  · rw [if_neg hmem]

theorem secAssign_pkg (r : MRecord) (k : List Char) (v : PyVal) :
    secAssign (("package").data) r k v = setPkgField r k v := by
  unfold secAssign
  rw [if_pos rfl]

theorem secAssign_deps (r : MRecord) (k : List Char) (v : PyVal) :
    secAssign (("dependencies").data) r k v =
      { r with dependencies := dictInsert r.dependencies k v } := by
  unfold secAssign
  rw [if_neg (by decide), if_pos rfl]

theorem secAssign_devdeps (r : MRecord) (k : List Char) (v : PyVal) :
    secAssign (("dev-dependencies").data) r k v =
      { r with dev_dependencies := dictInsert r.dev_dependencies k v } := by
  unfold secAssign
  rw [if_neg (by decide), if_neg (by decide), if_pos rfl]

theorem secAssign_scripts (r : MRecord) (k : List Char) (v : PyVal) :
    secAssign (("scripts").data) r k v =
      { r with scripts := dictInsert r.scripts k v } := by
  unfold secAssign
  rw [if_neg (by decide), if_neg (by decide), if_neg (by decide), if_pos rfl]

theorem foldl_fileLines (jl : List Char → List (List Char)) (r : MRecord)
    (fs : List (List Char)) :
    List.foldl (tomlStep jl) (some (("package.files").data), r)
      (fs.map fileLine) = (some (("package.files").data), r) := by
  induction fs with
  | nil => rfl
  | cons f t ih =>
      rw [List.map_cons, List.foldl_cons, tomlStep_fileLine jl r f]
      exact ih

theorem foldl_kv_sec (jl : List Char → List (List Char)) (sec : List Char)
    (ps : List (List Char × List Char)) :
    ∀ r, (∀ p ∈ ps, goodKey p.1) →
    List.foldl (tomlStep jl) (some sec, r)
      (ps.map (fun p => kvLine p.1 p.2)) =
      (some sec, ps.foldl (fun rr p => secAssign sec rr p.1 (.str p.2)) r) := by
  induction ps with
  | nil => intro r _; rfl
  | cons p t ih =>
      intro r hps
      rw [List.map_cons, List.foldl_cons,
        tomlStep_kv jl sec r p.1 p.2 (hps p (List.mem_cons_self p t)),
        List.foldl_cons]
      exact ih _ (fun q hq => hps q (List.mem_cons_of_mem p hq))

theorem foldl_secAssign_deps (ps : List (List Char × List Char)) :
    ∀ r : MRecord,
    ps.foldl (fun rr p => secAssign (("dependencies").data) rr p.1 (.str p.2)) r
      = { r with dependencies :=
          ps.foldl (fun d p => dictInsert d p.1 (.str p.2)) r.dependencies } := by
  induction ps with
  | nil => intro r; rfl
  | cons p t ih =>
      intro r
      rw [List.foldl_cons, secAssign_deps, ih, List.foldl_cons]

theorem foldl_secAssign_devdeps (ps : List (List Char × List Char)) :
    ∀ r : MRecord,
    ps.foldl (fun rr p =>
        secAssign (("dev-dependencies").data) rr p.1 (.str p.2)) r
      = { r with dev_dependencies :=
          ps.foldl (fun d p => dictInsert d p.1 (.str p.2)) r.dev_dependencies } := by
  induction ps with
  | nil => intro r; rfl
  | cons p t ih =>
      intro r
      rw [List.foldl_cons, secAssign_devdeps, ih, List.foldl_cons]

theorem foldl_secAssign_scripts (ps : List (List Char × List Char)) :
    ∀ r : MRecord,
    ps.foldl (fun rr p => secAssign (("scripts").data) rr p.1 (.str p.2)) r
      = { r with scripts :=
          ps.foldl (fun d p => dictInsert d p.1 (.str p.2)) r.scripts } := by
  induction ps with
  | nil => intro r; rfl
  | cons p t ih =>
      intro r
      rw [List.foldl_cons, secAssign_scripts, ih, List.foldl_cons]

theorem assocSet_fresh (xs : List (List Char × PyVal)) (k : List Char)
    (v : PyVal) (h : k ∉ xs.map Prod.fst) : assocSet xs k v = xs ++ [(k, v)] := by
  induction xs with
  | nil => rfl
  | cons q t ih =>
      obtain ⟨qk, qv⟩ := q
      rw [List.map_cons] at h
      have hne : qk ≠ k := fun he => h (he ▸ List.mem_cons_self _ _)
      have ht : k ∉ t.map Prod.fst := fun hm => h (List.mem_cons_of_mem _ hm)
      rw [assocSet, if_neg hne, ih ht]
      rfl

theorem foldl_assocSet_fresh (ps : List (List Char × List Char)) :
    ∀ acc : List (List Char × PyVal),
    (∀ p ∈ ps, p.1 ∉ acc.map Prod.fst) → (ps.map Prod.fst).Nodup →
    ps.foldl (fun a p => assocSet a p.1 (.str p.2)) acc =
      acc ++ ps.map (fun p => (p.1, .str p.2)) := by
  induction ps with
  | nil => intro acc _ _; simp
  | cons p t ih =>
      intro acc hdisj hnd
      rw [List.foldl_cons,
        assocSet_fresh acc p.1 (.str p.2) (hdisj p (List.mem_cons_self p t))]
      rw [List.map_cons, List.nodup_cons] at hnd
      have hd2 : ∀ q ∈ t, q.1 ∉ (acc ++ [(p.1, PyVal.str p.2)]).map Prod.fst := by
        intro q hq
        simp only [List.map_append, List.mem_append]
        rintro (hm | hm)
        · exact hdisj q (List.mem_cons_of_mem p hq) hm
        · simp at hm
          exact hnd.1 (hm ▸ List.mem_map_of_mem Prod.fst hq)
      rw [ih (acc ++ [(p.1, PyVal.str p.2)]) hd2 hnd.2]
      simp

theorem foldl_dictInsert_dict (ps : List (List Char × List Char)) :
    ∀ xs, ps.foldl (fun d p => dictInsert d p.1 (.str p.2)) (.dict xs) =
      .dict (ps.foldl (fun a p => assocSet a p.1 (.str p.2)) xs) := by
  induction ps with
  | nil => intro xs; rfl
  | cons p t ih =>
      intro xs
      rw [List.foldl_cons, List.foldl_cons]
      exact ih (assocSet xs p.1 (.str p.2))

theorem dict_fold_nil (ps : List (List Char × List Char))
    (hnd : (ps.map Prod.fst).Nodup) :
    ps.foldl (fun d p => dictInsert d p.1 (.str p.2)) (.dict []) =
      .dict (ps.map (fun p => (p.1, .str p.2))) := by
  rw [foldl_dictInsert_dict, foldl_assocSet_fresh ps [] (by simp) hnd]
  rfl

theorem foldl_opt_kv (jl : List Char → List (List Char)) (sec : List Char)
    (r : MRecord) (c : Prop) [Decidable c] (k v : List Char) (hk : goodKey k) :
    List.foldl (tomlStep jl) (some sec, r) (if c then [kvLine k v] else []) =
      (some sec, if c then secAssign sec r k (.str v) else r) := by
  split_ifs with h
  · rw [List.foldl_cons, tomlStep_kv jl sec r k v hk, List.foldl_nil]
  · rfl

theorem foldl_opt_kw (jl : List Char → List (List Char)) (r : MRecord)
    (c : Prop) [Decidable c] (out : List Char)
    (h1 : c → out.headD ' ' = '[') (h2 : c → out.getLastD ' ' = ']') :
    List.foldl (tomlStep jl) (some (("package").data), r)
      (if c then [("keywords = ").data ++ out] else []) =
      (some (("package").data),
        if c then setPkgField r (("keywords").data) (.arr (jl out)) else r) := by
  split_ifs with h
  · rw [List.foldl_cons, tomlStep_keywords jl r out (h1 h) (h2 h), List.foldl_nil]
  · rfl

theorem foldl_files_seg (jl : List Char → List (List Char))
    (sec : Option (List Char)) (r : MRecord) (c : Prop) [Decidable c]
    (fs : List (List Char)) :
    List.foldl (tomlStep jl) (sec, r)
      (if c then ([("[package.files]").data] ++ fs.map fileLine ++ [[]])
       else []) =
      ((if c then some (("package.files").data) else sec), r) := by
  split_ifs with h
  · rw [show ([("[package.files]").data] ++ fs.map fileLine ++ [[]]) =
      (("[package.files]").data) :: (fs.map fileLine ++ [[]]) from rfl]
    rw [List.foldl_cons, tomlStep_header_files, List.foldl_append,
      foldl_fileLines, List.foldl_cons, tomlStep_blank, List.foldl_nil]
  · rfl

theorem foldl_deps_seg (jl : List Char → List (List Char))
    (sec : Option (List Char)) (r : MRecord) (c : Prop) [Decidable c]
    (ps : List (List Char × List Char)) (hps : ∀ p ∈ ps, goodKey p.1) :
    List.foldl (tomlStep jl) (sec, r)
      (if c then ([("[dependencies]").data] ++
         ps.map (fun p => kvLine p.1 p.2) ++ [[]]) else []) =
      ((if c then some (("dependencies").data) else sec),
       if c then { r with dependencies :=
                    ps.foldl (fun d p => dictInsert d p.1 (.str p.2)) r.dependencies }
       else r) := by
  split_ifs with h
  · rw [show ([("[dependencies]").data] ++ ps.map (fun p => kvLine p.1 p.2)
      ++ [[]]) = (("[dependencies]").data) ::
        (ps.map (fun p => kvLine p.1 p.2) ++ [[]]) from rfl]
    rw [List.foldl_cons, tomlStep_header_deps, List.foldl_append,
      foldl_kv_sec jl _ ps r hps, foldl_secAssign_deps,
      List.foldl_cons, tomlStep_blank, List.foldl_nil]
  · rfl

theorem foldl_devdeps_seg (jl : List Char → List (List Char))
    (sec : Option (List Char)) (r : MRecord) (c : Prop) [Decidable c]
    (ps : List (List Char × List Char)) (hps : ∀ p ∈ ps, goodKey p.1) :
    List.foldl (tomlStep jl) (sec, r)
      (if c then ([("[dev-dependencies]").data] ++
         ps.map (fun p => kvLine p.1 p.2) ++ [[]]) else []) =
      ((if c then some (("dev-dependencies").data) else sec),
       if c then { r with dev_dependencies :=
                    ps.foldl (fun d p => dictInsert d p.1 (.str p.2)) r.dev_dependencies }
       else r) := by
  split_ifs with h
  · rw [show ([("[dev-dependencies]").data] ++ ps.map (fun p => kvLine p.1 p.2)
      ++ [[]]) = (("[dev-dependencies]").data) ::
        (ps.map (fun p => kvLine p.1 p.2) ++ [[]]) from rfl]
    rw [List.foldl_cons, tomlStep_header_devdeps, List.foldl_append,
      foldl_kv_sec jl _ ps r hps, foldl_secAssign_devdeps,
      List.foldl_cons, tomlStep_blank, List.foldl_nil]
  · rfl

theorem foldl_scripts_seg (jl : List Char → List (List Char))
    (sec : Option (List Char)) (r : MRecord) (c : Prop) [Decidable c]
    (ps : List (List Char × List Char)) (hps : ∀ p ∈ ps, goodKey p.1) :
    List.foldl (tomlStep jl) (sec, r)
      (if c then ([("[scripts]").data] ++
         ps.map (fun p => kvLine p.1 p.2) ++ [[]]) else []) =
      ((if c then some (("scripts").data) else sec),
       if c then { r with scripts :=
                    ps.foldl (fun d p => dictInsert d p.1 (.str p.2)) r.scripts }
       else r) := by
  split_ifs with h
  · rw [show ([("[scripts]").data] ++ ps.map (fun p => kvLine p.1 p.2)
      ++ [[]]) = (("[scripts]").data) ::
        (ps.map (fun p => kvLine p.1 p.2) ++ [[]]) from rfl]
    rw [List.foldl_cons, tomlStep_header_scripts, List.foldl_append,
      foldl_kv_sec jl _ ps r hps, foldl_secAssign_scripts,
      List.foldl_cons, tomlStep_blank, List.foldl_nil]
  · rfl

theorem splitSep_no_sep (sep : Char) (x : List Char) (hx : sep ∉ x) :
    splitSep sep x = [x] := by
  induction x with
  | nil => rfl
  | cons c t ih =>
      have hc : c ≠ sep := fun he => hx (by simp [he])
      have ht : sep ∉ t := fun he => hx (by simp [he])
      rw [splitSep_cons_ne sep c t hc, ih ht]
      rfl

theorem splitSep_joinSep (sep : Char) (lines : List (List Char)) :
    lines ≠ [] → (∀ l ∈ lines, sep ∉ l) →
    splitSep sep (joinSep sep lines) = lines := by
  induction lines with
  | nil => intro h _; exact absurd rfl h
  | cons x t ih =>
      intro _ hnl
      cases t with
      | nil =>
          show splitSep sep x = [x]
          exact splitSep_no_sep sep x (hnl x (List.mem_cons_self _ _))
      | cons y u =>
          show splitSep sep (x ++ sep :: joinSep sep (y :: u)) = x :: y :: u
          rw [splitSep_append_sep sep x _ (hnl x (List.mem_cons_self _ _)),
            ih (by simp) (fun l hl => hnl l (List.mem_cons_of_mem x hl))]

theorem tomlLines_ne_nil (jd : List (List Char) → List Char)
    (m : PackageManifest) : tomlLines jd m ≠ [] := by
  intro h
  have hlen := congrArg List.length h
  simp only [tomlLines, List.length_append, List.length_cons,
    List.length_nil] at hlen
  omega

theorem foldl_one_kv (jl : List Char → List (List Char)) (sec : List Char)
    (r : MRecord) (k v : List Char) (hk : goodKey k) :
    List.foldl (tomlStep jl) (some sec, r) [kvLine k v] =
      (some sec, secAssign sec r k (.str v)) := by
  rw [List.foldl_cons, tomlStep_kv jl sec r k v hk, List.foldl_nil]

theorem foldl_blank (jl : List Char → List (List Char))
    (st : Option (List Char) × MRecord) :
    List.foldl (tomlStep jl) st [[]] = st := by
  rw [List.foldl_cons, tomlStep_blank, List.foldl_nil]

theorem foldl_pkg_head (jl : List Char → List (List Char))
    (m : PackageManifest) :
    List.foldl (tomlStep jl) ((none : Option (List Char)), initRecord)
      [("[package]").data,
       kvLine (("name").data) m.name,
       kvLine (("version").data) m.version,
       kvLine (("description").data) m.description,
       kvLine (("author").data) m.author,
       kvLine (("license").data) m.license] =
      (some (("package").data),
       setPkgField (setPkgField (setPkgField (setPkgField (setPkgField
         initRecord (("name").data) (.str m.name)) (("version").data)
         (.str m.version)) (("description").data) (.str m.description))
         (("author").data) (.str m.author)) (("license").data)
         (.str m.license)) := by
  rw [List.foldl_cons, tomlStep_header_package,
    List.foldl_cons,
    tomlStep_kv jl (("package").data) _ (("name").data) m.name (by decide),
    secAssign_pkg,
    List.foldl_cons,
    tomlStep_kv jl (("package").data) _ (("version").data) m.version (by decide),
    secAssign_pkg,
    List.foldl_cons,
    tomlStep_kv jl (("package").data) _ (("description").data) m.description
      (by decide),
    secAssign_pkg,
    List.foldl_cons,
    tomlStep_kv jl (("package").data) _ (("author").data) m.author (by decide),
    secAssign_pkg,
    List.foldl_cons,
    tomlStep_kv jl (("package").data) _ (("license").data) m.license (by decide),
    secAssign_pkg,
    List.foldl_nil]

/-- The record the `[package]` section of `to_toml` output denotes after the
`from_toml` loop has processed it. -/
def pkgStage (jl : List Char → List (List Char))
    (jd : List (List Char) → List Char) (m : PackageManifest) : MRecord :=
  let r5 := setPkgField (setPkgField (setPkgField (setPkgField (setPkgField
    initRecord (("name").data) (.str m.name)) (("version").data)
    (.str m.version)) (("description").data) (.str m.description))
    (("author").data) (.str m.author)) (("license").data) (.str m.license)
  let r6 := if m.repository ≠ [] then
    setPkgField r5 (("repository").data) (.str m.repository) else r5
  let r7 := if m.homepage ≠ [] then
    setPkgField r6 (("homepage").data) (.str m.homepage) else r6
  let r8 := if m.keywords ≠ [] then
    setPkgField r7 (("keywords").data) (.arr (jl (jd m.keywords))) else r7
  let r9 := setPkgField r8 (("main").data) (.str m.main)
  if m.min_bp_version ≠ [] then
    setPkgField r9 (("min_bp_version").data) (.str m.min_bp_version) else r9

/-- The whole record `from_toml` reconstructs from `to_toml` output. -/
def rtRecord (jl : List Char → List (List Char))
    (jd : List (List Char) → List Char) (m : PackageManifest) : MRecord :=
  let p := pkgStage jl jd m
  let r11 := if m.dependencies ≠ [] then
    { p with
      dependencies := m.dependencies.foldl
                        (fun d q => dictInsert d q.1 (.str q.2)) p.dependencies }
    else p
  let r12 := if m.dev_dependencies ≠ [] then
    { r11 with
      dev_dependencies :=
        m.dev_dependencies.foldl
          (fun d q => dictInsert d q.1 (.str q.2)) r11.dev_dependencies }
    else r11
  if m.scripts ≠ [] then
    { r12 with
      scripts := m.scripts.foldl
                   (fun d q => dictInsert d q.1 (.str q.2)) r12.scripts }
    else r12

theorem from_toml_to_toml (jl : List Char → List (List Char))
    (jd : List (List Char) → List Char) (m : PackageManifest)
    (hnl : ∀ l ∈ tomlLines jd m, '\n' ∉ l)
    (hkw1 : m.keywords ≠ [] → (jd m.keywords).headD ' ' = '[')
    (hkw2 : m.keywords ≠ [] → (jd m.keywords).getLastD ' ' = ']')
    (hdk : ∀ p ∈ m.dependencies, goodKey p.1)
    (hddk : ∀ p ∈ m.dev_dependencies, goodKey p.1)
    (hsk : ∀ p ∈ m.scripts, goodKey p.1) :
    from_toml jl (to_toml jd m) = rtRecord jl jd m := by
  have hsplit : splitSep '\n' (to_toml jd m) = tomlLines jd m :=
    splitSep_joinSep '\n' (tomlLines jd m) (tomlLines_ne_nil jd m) hnl
  unfold from_toml
  rw [hsplit]
  unfold tomlLines
  rw [List.foldl_append, List.foldl_append, List.foldl_append,
    List.foldl_append, List.foldl_append, List.foldl_append,
    List.foldl_append, List.foldl_append, List.foldl_append,
    List.foldl_append]
  rw [foldl_pkg_head jl m]
  rw [foldl_opt_kv jl (("package").data) _ (m.repository ≠ [])
    (("repository").data) m.repository (by decide), secAssign_pkg]
  rw [foldl_opt_kv jl (("package").data) _ (m.homepage ≠ [])
    (("homepage").data) m.homepage (by decide), secAssign_pkg]
  rw [foldl_opt_kw jl _ (m.keywords ≠ []) (jd m.keywords) hkw1 hkw2]
  rw [foldl_one_kv jl (("package").data) _ (("main").data) m.main (by decide),
    secAssign_pkg]
  rw [foldl_opt_kv jl (("package").data) _ (m.min_bp_version ≠ [])
    (("min_bp_version").data) m.min_bp_version (by decide), secAssign_pkg]
  rw [foldl_blank jl]
  rw [foldl_files_seg jl _ _ (m.files ≠ []) m.files]
  rw [foldl_deps_seg jl _ _ (m.dependencies ≠ []) m.dependencies hdk]
  rw [foldl_devdeps_seg jl _ _ (m.dev_dependencies ≠ []) m.dev_dependencies hddk]
  rw [foldl_scripts_seg jl _ _ (m.scripts ≠ []) m.scripts hsk]
  rfl

theorem pkgStage_files (jl : List Char → List (List Char))
    (jd : List (List Char) → List Char) (m : PackageManifest) :
    (pkgStage jl jd m).files = .arr [] := by
  unfold pkgStage
  dsimp only
  split_ifs <;> rfl

theorem pkgStage_name (jl : List Char → List (List Char))
    (jd : List (List Char) → List Char) (m : PackageManifest) :
    (pkgStage jl jd m).name = .str m.name := by
  unfold pkgStage
  dsimp only
  split_ifs <;> rfl

theorem pkgStage_version (jl : List Char → List (List Char))
    (jd : List (List Char) → List Char) (m : PackageManifest) :
    (pkgStage jl jd m).version = .str m.version := by
  unfold pkgStage
  dsimp only
  split_ifs <;> rfl

theorem pkgStage_deps (jl : List Char → List (List Char))
    (jd : List (List Char) → List Char) (m : PackageManifest) :
    (pkgStage jl jd m).dependencies = .dict [] := by
  unfold pkgStage
  dsimp only
  split_ifs <;> rfl

theorem pkgStage_devdeps (jl : List Char → List (List Char))
    (jd : List (List Char) → List Char) (m : PackageManifest) :
    (pkgStage jl jd m).dev_dependencies = .dict [] := by
  unfold pkgStage
  dsimp only
  split_ifs <;> rfl

theorem pkgStage_scripts (jl : List Char → List (List Char))
    (jd : List (List Char) → List Char) (m : PackageManifest) :
    (pkgStage jl jd m).scripts = .dict [] := by
  unfold pkgStage
  dsimp only
  split_ifs <;> rfl

theorem rtRecord_files (jl : List Char → List (List Char))
    (jd : List (List Char) → List Char) (m : PackageManifest) :
    (rtRecord jl jd m).files = .arr [] := by
  unfold rtRecord
  dsimp only
  split_ifs <;> exact pkgStage_files jl jd m

theorem rtRecord_name (jl : List Char → List (List Char))
    (jd : List (List Char) → List Char) (m : PackageManifest) :
    (rtRecord jl jd m).name = .str m.name := by
  unfold rtRecord
  dsimp only
  split_ifs <;> exact pkgStage_name jl jd m

theorem rtRecord_version (jl : List Char → List (List Char))
    (jd : List (List Char) → List Char) (m : PackageManifest) :
    (rtRecord jl jd m).version = .str m.version := by
  unfold rtRecord
  dsimp only
  split_ifs <;> exact pkgStage_version jl jd m

theorem rtRecord_deps (jl : List Char → List (List Char))
    (jd : List (List Char) → List Char) (m : PackageManifest)
    (hnd : (m.dependencies.map Prod.fst).Nodup) :
    (rtRecord jl jd m).dependencies =
      .dict (m.dependencies.map (fun p => (p.1, .str p.2))) := by
  have hsc : ∀ r : MRecord,
      (if m.scripts ≠ [] then
        { r with
          scripts := m.scripts.foldl
                       (fun d q => dictInsert d q.1 (.str q.2)) r.scripts }
        else r).dependencies = r.dependencies := by
    intro r; split_ifs <;> rfl
  have hdv : ∀ r : MRecord,
      (if m.dev_dependencies ≠ [] then
        { r with
          dev_dependencies :=
            m.dev_dependencies.foldl
              (fun d q => dictInsert d q.1 (.str q.2)) r.dev_dependencies }
        else r).dependencies = r.dependencies := by
    intro r; split_ifs <;> rfl
  unfold rtRecord
  dsimp only
  rw [hsc, hdv]
  by_cases h : m.dependencies ≠ []
  · rw [if_pos h]
    dsimp only
    rw [pkgStage_deps]
    exact dict_fold_nil m.dependencies hnd
  · rw [if_neg h, pkgStage_deps, not_not.mp h]
    rfl

theorem rtRecord_devdeps (jl : List Char → List (List Char))
    (jd : List (List Char) → List Char) (m : PackageManifest)
    (hnd : (m.dev_dependencies.map Prod.fst).Nodup) :
    (rtRecord jl jd m).dev_dependencies =
      .dict (m.dev_dependencies.map (fun p => (p.1, .str p.2))) := by
  have hsc : ∀ r : MRecord,
      (if m.scripts ≠ [] then
        { r with
          scripts := m.scripts.foldl
                       (fun d q => dictInsert d q.1 (.str q.2)) r.scripts }
        else r).dev_dependencies = r.dev_dependencies := by
    intro r; split_ifs <;> rfl
  have hdp : ∀ r : MRecord,
      (if m.dependencies ≠ [] then
        { r with
          dependencies := m.dependencies.foldl
                            (fun d q => dictInsert d q.1 (.str q.2)) r.dependencies }
        else r).dev_dependencies = r.dev_dependencies := by
    intro r; split_ifs <;> rfl
  unfold rtRecord
  dsimp only
  rw [hsc]
  by_cases h : m.dev_dependencies ≠ []
  · rw [if_pos h]
    dsimp only
    rw [hdp, pkgStage_devdeps]
    exact dict_fold_nil m.dev_dependencies hnd
  · rw [if_neg h, hdp, pkgStage_devdeps, not_not.mp h]
    rfl

theorem rtRecord_scripts (jl : List Char → List (List Char))
    (jd : List (List Char) → List Char) (m : PackageManifest)
    (hnd : (m.scripts.map Prod.fst).Nodup) :
    (rtRecord jl jd m).scripts =
      .dict (m.scripts.map (fun p => (p.1, .str p.2))) := by
  have hdv : ∀ r : MRecord,
      (if m.dev_dependencies ≠ [] then
        { r with
          dev_dependencies :=
            m.dev_dependencies.foldl
              (fun d q => dictInsert d q.1 (.str q.2)) r.dev_dependencies }
        else r).scripts = r.scripts := by
    intro r; split_ifs <;> rfl
  have hdp : ∀ r : MRecord,
      (if m.dependencies ≠ [] then
        { r with
          dependencies := m.dependencies.foldl
                            (fun d q => dictInsert d q.1 (.str q.2)) r.dependencies }
        else r).scripts = r.scripts := by
    intro r; split_ifs <;> rfl
  unfold rtRecord
  dsimp only
  by_cases h : m.scripts ≠ []
  · rw [if_pos h]
    dsimp only
    rw [hdv, hdp, pkgStage_scripts]
    exact dict_fold_nil m.scripts hnd
  · rw [if_neg h, hdv, hdp, pkgStage_scripts, not_not.mp h]
    rfl

/-- C10: the manifest text round-trip is lossy on the files field. For every
`PackageManifest m` whose written lines contain no newline (in particular no
field value contains a quote-breaking newline), whose dict-section keys are
well formed and duplicate-free, and whose `json.dumps` keywords output is
bracketed, `from_toml (to_toml m)` has an empty `files` list, while `name`,
`version`, `dependencies`, `dev_dependencies` and `scripts` are preserved;
hence the round-trip is the identity only when `m.files` is empty: a
non-empty `files` list makes the round-tripped record differ from the
record `m` denotes. -/
theorem c10_round_trip_files_lost (jl : List Char → List (List Char))
    (jd : List (List Char) → List Char) (m : PackageManifest)
    (hnl : ∀ l ∈ tomlLines jd m, '\n' ∉ l)
    (hkw1 : m.keywords ≠ [] → (jd m.keywords).headD ' ' = '[')
    (hkw2 : m.keywords ≠ [] → (jd m.keywords).getLastD ' ' = ']')
    (hdk : ∀ p ∈ m.dependencies, goodKey p.1)
    (hddk : ∀ p ∈ m.dev_dependencies, goodKey p.1)
    (hsk : ∀ p ∈ m.scripts, goodKey p.1)
    (hdnd : (m.dependencies.map Prod.fst).Nodup)
    (hddnd : (m.dev_dependencies.map Prod.fst).Nodup)
    (hsnd : (m.scripts.map Prod.fst).Nodup) :
    (from_toml jl (to_toml jd m)).files = .arr [] ∧
    (from_toml jl (to_toml jd m)).name = .str m.name ∧
    (from_toml jl (to_toml jd m)).version = .str m.version ∧
    (from_toml jl (to_toml jd m)).dependencies =
      .dict (m.dependencies.map (fun p => (p.1, .str p.2))) ∧
    (from_toml jl (to_toml jd m)).dev_dependencies =
      .dict (m.dev_dependencies.map (fun p => (p.1, .str p.2))) ∧
    (from_toml jl (to_toml jd m)).scripts =
      .dict (m.scripts.map (fun p => (p.1, .str p.2))) ∧
    (m.files ≠ [] → from_toml jl (to_toml jd m) ≠ manifestRecord m) := by
  have hR := from_toml_to_toml jl jd m hnl hkw1 hkw2 hdk hddk hsk
  rw [hR]
  refine ⟨rtRecord_files jl jd m, rtRecord_name jl jd m,
    rtRecord_version jl jd m, rtRecord_deps jl jd m hdnd,
    rtRecord_devdeps jl jd m hddnd, rtRecord_scripts jl jd m hsnd, ?_⟩
  intro hf heq
  have h2 := congrArg MRecord.files heq
  rw [rtRecord_files jl jd m] at h2
  have h3 : PyVal.arr [] = PyVal.arr m.files := h2
  injection h3 with h4
  exact hf h4.symm

/-- A concrete manifest used to instantiate the round-trip theorem: one file,
one dependency, one script, no keywords. -/
def c10m : PackageManifest where
  name := ("demo").data
  version := ("1.0.0").data
  description := ("a demo").data
  author := ("ann").data
  license := ("MIT").data
  repository := []
  homepage := []
  keywords := []
  main := ("main.bp").data
  files := [("main.bp").data]
  dependencies := [((("http_client").data), ("1.0.0").data)]
  dev_dependencies := []
  scripts := [((("build").data), ("bp build").data)]
  min_bp_version := ("1.0.0").data

theorem c10_round_trip_files_lost_witness :
    (∀ l ∈ tomlLines (fun _ => []) c10m, '\n' ∉ l) ∧
    (∀ p ∈ c10m.dependencies, goodKey p.1) ∧
    (∀ p ∈ c10m.scripts, goodKey p.1) ∧
    (from_toml (fun _ => []) (to_toml (fun _ => []) c10m)).files = .arr [] ∧
    (from_toml (fun _ => []) (to_toml (fun _ => []) c10m)).name =
      .str (("demo").data) ∧
    c10m.files ≠ [] ∧
    from_toml (fun _ => []) (to_toml (fun _ => []) c10m) ≠ manifestRecord c10m := by
  have h := c10_round_trip_files_lost (fun _ => []) (fun _ => []) c10m
    (by decide) (by decide) (by decide) (by decide) (by decide) (by decide)
    (by decide) (by decide) (by decide)
  exact ⟨by decide, by decide, by decide, h.1, h.2.1, by decide,
    h.2.2.2.2.2.2 (by decide)⟩
